import Mathlib

/-!
Verification development for the legal-extraction-system repository.

The core pipeline (src/llm_extractor.py, src/validator.py, src/text_cleaner.py,
src/config.py) is shallowly embedded below.  Python strings are modelled as
`List Char` (`Str`); Python `None` for a field value is `Option.none`; a field
mapping ("dict of entities") is modelled as a record with the eight canonical
keys, which is the shape every producer in the repository (the strict CSV
parser, the embedded-block parser and the heuristic extractor) emits.
Machine reals never occur on the verified paths; the completeness score is
modelled as a rational, which is exact for the values n/8 the code produces.
-/

namespace LegalExtraction

/-- Python strings, modelled as lists of characters. -/
abbrev Str := List Char

/-- Coerce a Lean string literal to the `Str` model. -/
def strOf (s : String) : Str := s.data

/-- Python whitespace (`str.strip`, `str.split()` with no argument), ASCII range:
space, tab, newline, carriage return, vertical tab, form feed. -/
def pyWs (c : Char) : Bool :=
  c = ' ' || c = '\t' || c = '\n' || c = '\r' || c = '\x0b' || c = '\x0c'

/-- Python `str.strip()`: drop whitespace from both ends. -/
def pstrip (cs : Str) : Str :=
  ((cs.dropWhile pyWs).reverse.dropWhile pyWs).reverse

/-- Python `str.lower()` (ASCII case mapping suffices for every string the
claims touch). -/
def pyLower (cs : Str) : Str := cs.map Char.toLower

/-- Python truthiness of an optional string value: `None` and `""` are falsy. -/
def pyTruthy : Option Str → Bool
  | none => false
  | some s => !s.isEmpty

/-- Worker for `pySplitWs`. -/
def pySplitWsGo : Str → Str → List Str
  | [], acc => if acc.isEmpty then [] else [acc.reverse]
  | c :: r, acc =>
    if pyWs c then
      if acc.isEmpty then pySplitWsGo r [] else acc.reverse :: pySplitWsGo r []
    else pySplitWsGo r (c :: acc)

/-- Python `str.split()` with no argument: split on whitespace runs, no empty
pieces. -/
def pySplitWs (cs : Str) : List Str := pySplitWsGo cs []

/-- `' '.join(value.split())`: collapse internal whitespace. -/
def wsCollapse (cs : Str) : Str := List.intercalate [' '] (pySplitWs cs)

/-- Python `'0' <= c <= '9'`, the `str.isdigit` test per character (ASCII). -/
def pyIsDigit (c : Char) : Bool := '0' ≤ c && c ≤ '9'

/-- Python `s.isdigit()`: nonempty and all digits. -/
def pyIsDigitStr (cs : Str) : Bool := !cs.isEmpty && cs.all pyIsDigit

/-- Python `str.split('\\n')`: split on every newline, keeping empty
pieces (`''.split('\\n') == ['']`). -/
def splitNl (cs : Str) : List Str :=
  cs.foldr
    (fun c acc =>
      if c = '\n' then [] :: acc else (c :: acc.headD []) :: acc.drop 1)
    [[]]

/-- Substring test (Python `needle in hay`). -/
def isSub (needle hay : Str) : Bool :=
  (List.range (hay.length + 1)).any fun i => needle.isPrefixOf (hay.drop i)

/-! ## Configuration constants (src/config.py) -/

/-- `Settings.MAX_RETRIES`. -/
def MAX_RETRIES : Nat := 5

/-- `Settings.MIN_SUMMARY_LINES`. -/
def MIN_SUMMARY_LINES : Nat := 1

/-- `Settings.MAX_SUMMARY_LINES`. -/
def MAX_SUMMARY_LINES : Nat := 5

/-- `Settings.VALID_RESULTS`. -/
def VALID_RESULTS : List Str :=
  [strOf "granted", strOf "denied", strOf "dismissed", strOf "allowed",
   strOf "rejected", strOf "deferido", strOf "indeferido",
   strOf "procedente", strOf "improcedente", strOf "arquivado"]

/-! ## Data model

`Settings.ENTITIES` / `CSV_FIELDS`: the eight canonical fields, in canonical
order.  A field mapping is a record with these eight keys; a value of `none`
models Python `None`. -/

structure Entities where
  autor : Option Str
  reu : Option Str
  assunto_principal : Option Str
  tipo_decisao : Option Str
  resultado : Option Str
  resumo_5_linhas : Option Str
  data_decisao : Option Str
  tribunal : Option Str
deriving DecidableEq, Repr

/-- The canonical field names, in canonical order (`CSV_FIELDS` in
llm_extractor.py, `Settings.ENTITIES` in config.py). -/
def CSV_FIELDS : List Str :=
  [strOf "autor", strOf "reu", strOf "assunto_principal", strOf "tipo_decisao",
   strOf "resultado", strOf "resumo_5_linhas", strOf "data_decisao",
   strOf "tribunal"]

/-- The eight values of a mapping, in canonical order. -/
def Entities.values (e : Entities) : List (Option Str) :=
  [e.autor, e.reu, e.assunto_principal, e.tipo_decisao, e.resultado,
   e.resumo_5_linhas, e.data_decisao, e.tribunal]

/-! ## Validators (src/validator.py)

Each `_validate_*` method returns a Python triple `(ok, normalized, error)`;
here `ValRes`. -/

structure ValRes where
  ok : Bool
  val : Option Str
  err : Str
deriving DecidableEq, Repr

/-- The guard shared by every validator:
`if not value or value.lower() in ['null', 'none', 'n/a']`. -/
def nullLike (v : Option Str) : Bool :=
  !pyTruthy v ||
    (match v with
     | none => false
     | some s =>
       pyLower s = strOf "null" || pyLower s = strOf "none" ||
         pyLower s = strOf "n/a")

/-- `EntityValidator._validate_party_name`. -/
def validate_party_name (v : Option Str) : ValRes :=
  if nullLike v then ⟨true, none, []⟩
  else
    let s := v.getD []
    let normalized := wsCollapse s
    if normalized.length < 2 then ⟨false, none, strOf "Nome muito curto"⟩
    else if pyIsDigitStr (normalized.filter (· ≠ ' ')) then
      ⟨false, none, strOf "Nome não pode ser apenas números"⟩
    else ⟨true, some normalized, []⟩

/-- `EntityValidator._validate_subject`. -/
def validate_subject (v : Option Str) : ValRes :=
  if nullLike v then ⟨true, none, []⟩
  else
    let normalized := wsCollapse (v.getD [])
    if normalized.length < 3 then ⟨false, none, strOf "Assunto muito curto"⟩
    else ⟨true, some normalized, []⟩

/-- `EntityValidator._validate_decision_type`: the known-type membership check
only drives a log line; the value is always accepted unchanged. -/
def validate_decision_type (v : Option Str) : ValRes :=
  if nullLike v then ⟨true, none, []⟩
  else ⟨true, some (v.getD []), []⟩

/-- `EntityValidator._validate_result`. -/
def validate_result (v : Option Str) : ValRes :=
  if nullLike v then ⟨true, none, []⟩
  else
    let s := v.getD []
    let normalized := pyLower s
    if VALID_RESULTS.any fun vr => isSub vr normalized then ⟨true, some s, []⟩
    else
      ⟨false, none,
       strOf "Resultado inválido. Esperado um de: granted, denied, dismissed, allowed, rejected, deferido, indeferido, procedente, improcedente, arquivado"⟩

/-- The non-empty stripped lines of a summary:
`[line.strip() for line in value.split('\n') if line.strip()]`. -/
def summaryLines (s : Str) : List Str :=
  ((splitNl s).map pstrip).filter (fun l => !l.isEmpty)

/-- `EntityValidator._validate_summary`: the only validator for which an
absent/placeholder value is itself a failure. -/
def validate_summary (v : Option Str) : ValRes :=
  if nullLike v then ⟨false, none, strOf "Resumo é obrigatório"⟩
  else
    let s := v.getD []
    let lines := summaryLines s
    if lines.length < MIN_SUMMARY_LINES then
      ⟨false, none, strOf "Resumo muito curto (mínimo 1 linha)"⟩
    else if lines.length > MAX_SUMMARY_LINES then
      ⟨true, some (List.intercalate ['\n'] (lines.take MAX_SUMMARY_LINES)), []⟩
    else ⟨true, some s, []⟩

/-! ### `EntityValidator._validate_date` and its `datetime.strptime` model

`date_formats` in the source is
`['%d/%m/%Y', '%d-%m-%Y', '%Y-%m-%d', '%d.%m.%Y', '%d %B %Y', '%B %d, %Y']`.
CPython's `_strptime` compiles each format to a regex that must consume the
whole string: `%d` is `3[01]|[12]\d|0[1-9]|[1-9]` (two digits preferred, value
1–31), `%m` is `1[0-2]|0[1-9]|[1-9]` (value 1–12), `%Y` is exactly four
digits, `%B` is a case-insensitive full month name, and a literal whitespace
run in the format matches one or more whitespace characters.  The resulting
numbers must form a valid calendar date with year at least 1 or the format
fails with `ValueError` and the next format is tried. -/

def digitVal (c : Char) : Nat := c.toNat - 48

/-- Format directives of the six layouts used by the source. -/
inductive FmtTok where
  | D | M | Y | B
  | lit (c : Char)
  | ws
deriving DecidableEq

/-- Full month names of the C locale with their month numbers (no name is a
prefix of another, so first-match iteration is exact). -/
def MONTHS : List (Str × Nat) :=
  [(strOf "january", 1), (strOf "february", 2), (strOf "march", 3),
   (strOf "april", 4), (strOf "may", 5), (strOf "june", 6),
   (strOf "july", 7), (strOf "august", 8), (strOf "september", 9),
   (strOf "october", 10), (strOf "november", 11), (strOf "december", 12)]

/-- Case-insensitive month-name match at the head of `s` (`%B`). -/
def firstMonth (s : Str) : Option (Nat × Str) :=
  MONTHS.foldr
    (fun p acc =>
      if pyLower (s.take p.1.length) = p.1 then some (p.2, s.drop p.1.length)
      else acc)
    none

/-- Backtracking matcher for one tokenized format against the whole string,
accumulating year, month and day. -/
def parseToks : List FmtTok → Str → Nat → Nat → Nat → Option (Nat × Nat × Nat)
  | [], [], y, m, d => some (y, m, d)
  | [], _ :: _, _, _, _ => none
  | .lit c :: ts, s, y, m, d =>
    match s with
    | c' :: r => if c' = c then parseToks ts r y m d else none
    | [] => none
  | .ws :: ts, s, y, m, d =>
    match s with
    | c :: r => if pyWs c then parseToks ts (r.dropWhile pyWs) y m d else none
    | [] => none
  | .D :: ts, s, y, m, _d =>
    (match s with
     | a :: b :: r =>
       if pyIsDigit a && pyIsDigit b then
         let v := 10 * digitVal a + digitVal b
         if 1 ≤ v && v ≤ 31 then parseToks ts r y m v else none
       else none
     | _ => none).orElse fun _ =>
      match s with
      | a :: r => if pyIsDigit a && a ≠ '0' then parseToks ts r y m (digitVal a) else none
      | [] => none
  | .M :: ts, s, y, _m, d =>
    (match s with
     | a :: b :: r =>
       if pyIsDigit a && pyIsDigit b then
         let v := 10 * digitVal a + digitVal b
         if 1 ≤ v && v ≤ 12 then parseToks ts r y v d else none
       else none
     | _ => none).orElse fun _ =>
      match s with
      | a :: r => if pyIsDigit a && a ≠ '0' then parseToks ts r y (digitVal a) d else none
      | [] => none
  | .Y :: ts, s, _y, m, d =>
    match s with
    | a :: b :: c :: e :: r =>
      if pyIsDigit a && pyIsDigit b && pyIsDigit c && pyIsDigit e then
        parseToks ts r (1000 * digitVal a + 100 * digitVal b + 10 * digitVal c + digitVal e) m d
      else none
    | _ => none
  | .B :: ts, s, y, _m, d =>
    match firstMonth (pyLower s) with
    | some (idx, r) => parseToks ts r y idx d
    | none => none

/-- Gregorian leap year (`datetime`'s calendar). -/
def isLeap (y : Nat) : Bool := (y % 4 = 0 && y % 100 ≠ 0) || y % 400 = 0

def daysInMonth (y m : Nat) : Nat :=
  if m = 2 then (if isLeap y then 29 else 28)
  else if m = 4 || m = 6 || m = 9 || m = 11 then 30
  else 31

/-- The `datetime(year, month, day)` constructor check (MINYEAR = 1). -/
def validYMD (y m d : Nat) : Bool :=
  1 ≤ y && y ≤ 9999 && 1 ≤ m && m ≤ 12 && 1 ≤ d && d ≤ daysInMonth y m

/-- `datetime.strptime(value, fmt)` for one tokenized format. -/
def strptime1 (fmt : List FmtTok) (s : Str) : Option (Nat × Nat × Nat) :=
  match parseToks fmt s 0 0 0 with
  | some (y, m, d) => if validYMD y m d then some (y, m, d) else none
  | none => none

/-- The source's `date_formats`, tokenized in order. -/
def DATE_FORMATS : List (List FmtTok) :=
  [[.D, .lit '/', .M, .lit '/', .Y],
   [.D, .lit '-', .M, .lit '-', .Y],
   [.Y, .lit '-', .M, .lit '-', .D],
   [.D, .lit '.', .M, .lit '.', .Y],
   [.D, .ws, .B, .ws, .Y],
   [.B, .ws, .D, .lit ',', .ws, .Y]]

/-- The format loop: first format that parses wins. -/
def strptimeFirst (s : Str) : Option (Nat × Nat × Nat) :=
  DATE_FORMATS.foldr (fun fmt acc => (strptime1 fmt s).orElse fun _ => acc) none

def digitChar (n : Nat) : Char := Char.ofNat (48 + n)

def pad2 (n : Nat) : Str := [digitChar (n / 10), digitChar (n % 10)]

/-- Year rendering for `strftime('%Y')`, zero-padded to four digits.  (C
`strftime` leaves years below 1000 unpadded on some platforms; the calendar
range the claims exercise has four-digit years, where the two behaviours
agree.) -/
def pad4 (n : Nat) : Str :=
  [digitChar (n / 1000 % 10), digitChar (n / 100 % 10), digitChar (n / 10 % 10),
   digitChar (n % 10)]

/-- `date_obj.strftime('%d/%m/%Y')`. -/
def renderDMY (y m d : Nat) : Str := pad2 d ++ '/' :: (pad2 m ++ '/' :: pad4 y)

/-! Fallback regex of `_validate_date`:
`(\d{1,2})[\/\-\.](\d{1,2})[\/\-\.](\d{4})`, searched left to right with the
usual greedy backtracking (`\d{1,2}` prefers two digits). -/

def isSep3 (c : Char) : Bool := c = '/' || c = '-' || c = '.'

/-- Greedy alternatives for `\d{1,2}`: the captured digits and the rest. -/
def grab12 (s : Str) : List (Str × Str) :=
  match s with
  | a :: b :: r =>
    if pyIsDigit a && pyIsDigit b then [([a, b], r), ([a], b :: r)]
    else if pyIsDigit a then [([a], b :: r)] else []
  | [a] => if pyIsDigit a then [([a], [])] else []
  | [] => []

/-- `\d{4}` at the head of `s` (nothing follows it in the pattern). -/
def grab4 (s : Str) : Option Str :=
  match s with
  | a :: b :: c :: e :: _ =>
    if pyIsDigit a && pyIsDigit b && pyIsDigit c && pyIsDigit e then
      some [a, b, c, e]
    else none
  | _ => none

/-- One anchored attempt of the numeric-triplet pattern, returning the three
captured groups. -/
def tripletAt (s : Str) : Option (Str × Str × Str) :=
  (grab12 s).findSome? fun p =>
    match p.2 with
    | c1 :: r2 =>
      if isSep3 c1 then
        (grab12 r2).findSome? fun q =>
          match q.2 with
          | c2 :: r4 =>
            if isSep3 c2 then (grab4 r4).map fun ys => (p.1, q.1, ys) else none
          | [] => none
      else none
    | [] => none

/-- `re.search` for the numeric triplet: leftmost match. -/
def searchTriplet : Str → Option (Str × Str × Str)
  | [] => none
  | c :: r => (tripletAt (c :: r)).orElse fun _ => searchTriplet r

/-- Python `str.zfill(2)` on a digit string. -/
def zfill2 (s : Str) : Str :=
  if s.length ≥ 2 then s else List.replicate (2 - s.length) '0' ++ s

/-- `EntityValidator._validate_date`: best-effort normalization, never a
failure. -/
def validate_date (v : Option Str) : ValRes :=
  if nullLike v then ⟨true, none, []⟩
  else
    let s := v.getD []
    match strptimeFirst s with
    | some (y, m, d) => ⟨true, some (renderDMY y m d), []⟩
    | none =>
      match searchTriplet s with
      | some (ds, ms, ys) =>
        ⟨true, some (zfill2 ds ++ '/' :: (zfill2 ms ++ '/' :: ys)), []⟩
      | none => ⟨true, some s, []⟩

/-- `EntityValidator._validate_court`. -/
def validate_court (v : Option Str) : ValRes :=
  if nullLike v then ⟨true, none, []⟩
  else
    let normalized := wsCollapse (v.getD [])
    if normalized.length < 3 then
      ⟨false, none, strOf "Nome do tribunal muito curto"⟩
    else ⟨true, some normalized, []⟩

/-- `f"{field}: {error}"`. -/
def fmtErr (field msg : Str) : Str := field ++ ':' :: ' ' :: msg

/-- `EntityValidator.validate`: run all eight field validators in the source's
dictionary order, collect prefixed error strings, and return
`(is_valid, validated, errors)`.  (In the source a key missing from the dict
is skipped; every producer in the pipeline emits all eight keys, which is the
shape `Entities` fixes, with `none` for Python `None`.) -/
def validate (e : Entities) : Bool × Entities × List Str :=
  let r1 := validate_party_name e.autor
  let r2 := validate_party_name e.reu
  let r3 := validate_subject e.assunto_principal
  let r4 := validate_decision_type e.tipo_decisao
  let r5 := validate_result e.resultado
  let r6 := validate_summary e.resumo_5_linhas
  let r7 := validate_date e.data_decisao
  let r8 := validate_court e.tribunal
  let errors :=
    (if r1.ok then [] else [fmtErr (strOf "autor") r1.err]) ++
    (if r2.ok then [] else [fmtErr (strOf "reu") r2.err]) ++
    (if r3.ok then [] else [fmtErr (strOf "assunto_principal") r3.err]) ++
    (if r4.ok then [] else [fmtErr (strOf "tipo_decisao") r4.err]) ++
    (if r5.ok then [] else [fmtErr (strOf "resultado") r5.err]) ++
    (if r6.ok then [] else [fmtErr (strOf "resumo_5_linhas") r6.err]) ++
    (if r7.ok then [] else [fmtErr (strOf "data_decisao") r7.err]) ++
    (if r8.ok then [] else [fmtErr (strOf "tribunal") r8.err])
  (errors.isEmpty,
   ⟨r1.val, r2.val, r3.val, r4.val, r5.val, r6.val, r7.val, r8.val⟩,
   errors)

/-- The per-field condition of `calculate_completeness`:
`entities.get(key) and str(entities[key]).lower() not in ['null','none','n/a','']`. -/
def filledCond (v : Option Str) : Bool :=
  pyTruthy v &&
    !(pyLower (v.getD []) = strOf "null" || pyLower (v.getD []) = strOf "none" ||
      pyLower (v.getD []) = strOf "n/a" || pyLower (v.getD []) = [])

/-- The `filled_fields` count of `calculate_completeness`. -/
def filledCount (e : Entities) : Nat := (e.values.filter filledCond).length

/-- `EntityValidator.calculate_completeness`, with the exact rational value of
the division (`n/8` is exact in Python floats as well). -/
def calculate_completeness (e : Entities) : ℚ :=
  let total := CSV_FIELDS.length
  if total > 0 then (filledCount e : ℚ) / (total : ℚ) else 0

/-! ## CSV wire format (src/llm_extractor.py)

`dict_to_csv_line` uses `csv.writer` with the default dialect: delimiter `,`,
quote char `"`, doubled quotes, line terminator CRLF, minimal quoting (a field
is quoted iff it contains the delimiter, the quote char, or a line-terminator
character).  `_parse_csv_output` uses `csv.DictReader` with the same dialect:
quote-aware field splitting, a quote is only special at the start of a field,
a doubled quote inside a quoted field is a literal quote, and an unquoted
newline ends the record. -/

/-- Replace each newline with the literal two-character sequence `\n`
(`v.replace("\n", "\\n")` in `dict_to_csv_line`). -/
def escNl : Str → Str
  | [] => []
  | c :: r => if c = '\n' then '\\' :: 'n' :: escNl r else c :: escNl r

/-- Restore the literal two-character sequence `\n` to a newline
(`v.replace("\\n", "\n")` in `_parse_csv_output`; leftmost, non-overlapping). -/
def unescNl : Str → Str
  | [] => []
  | [c] => [c]
  | a :: b :: r =>
    if a = '\\' ∧ b = 'n' then '\n' :: unescNl r else a :: unescNl (b :: r)

/-- `raw.replace("\r\n", "\n")` (leftmost, non-overlapping). -/
def replCrlf : Str → Str
  | [] => []
  | [c] => [c]
  | a :: b :: r =>
    if a = '\r' ∧ b = '\n' then '\n' :: replCrlf r else a :: replCrlf (b :: r)

/-- QUOTE_MINIMAL: quote iff the field contains `,`, `"`, `\r` or `\n`. -/
def needsQuote (f : Str) : Bool :=
  f.any fun c => c = ',' || c = '"' || c = '\r' || c = '\n'

/-- Double every quote character (CSV quoting of embedded quotes). -/
def dqDouble : Str → Str
  | [] => []
  | c :: r => if c = '"' then '"' :: '"' :: dqDouble r else c :: dqDouble r

/-- Render one CSV field, minimally quoted. -/
def writeField (f : Str) : Str :=
  if needsQuote f then '"' :: (dqDouble f ++ ['"']) else f

/-- Render one CSV record (no terminator): fields joined by commas. -/
def writeRecord : List Str → Str
  | [] => []
  | [f] => writeField f
  | f :: rest => writeField f ++ ',' :: writeRecord rest

/-- Encoding of one value for the CSV row: absent as empty, newlines escaped
(`"" if v is None else v.replace("\n", "\\n")`). -/
def encVal : Option Str → Str
  | none => []
  | some s => escNl s

/-- `LLMExtractor.dict_to_csv_line`: write the eight values as one CSV
record, then strip the writer's CRLF terminator
(`output.getvalue().strip()`). -/
def dict_to_csv_line (e : Entities) : Str :=
  pstrip (writeRecord (e.values.map encVal) ++ ['\r', '\n'])

/-- Reader states of the CSV record scanner. -/
inductive CState where
  | fs     -- at the start of a field
  | unq    -- inside an unquoted field
  | inq    -- inside a quoted field
  | postq  -- just after a closing quote
deriving DecidableEq

/-- Scan one CSV record from the character stream: fields split on unquoted
commas, an unquoted newline ends the record, doubled quotes inside a quoted
field are literal, and (non-strict dialect) text after a closing quote is
appended to the field. -/
def csvRun : Str → CState → Str → List Str
  | [], .fs, _ => [[]]
  | [], _, acc => [acc.reverse]
  | c :: r, .fs, _ =>
    if c = ',' then [] :: csvRun r .fs []
    else if c = '"' then csvRun r .inq []
    else if c = '\n' then [[]]
    else csvRun r .unq [c]
  | c :: r, .unq, acc =>
    if c = ',' then acc.reverse :: csvRun r .fs []
    else if c = '\n' then [acc.reverse]
    else csvRun r .unq (c :: acc)
  | c :: r, .inq, acc =>
    if c = '"' then csvRun r .postq acc
    else csvRun r .inq (c :: acc)
  | c :: r, .postq, acc =>
    if c = '"' then csvRun r .inq ('"' :: acc)
    else if c = ',' then acc.reverse :: csvRun r .fs []
    else if c = '\n' then [acc.reverse]
    else csvRun r .unq (c :: acc)

/-- The first CSV record of a stream (`[]` for an empty stream, as
`csv.reader` yields an empty row for a blank line). -/
def splitRecord (cs : Str) : List Str :=
  if cs.isEmpty then [] else csvRun cs .fs []

/-- `csv.DictReader` row lookup: `dict(zip(fieldnames, row))`, missing trailing
fieldnames filled with the `restval` default `None`; on duplicate fieldnames
the last assignment wins. -/
def rowGet (names : List Str) (vals : List Str) (k : Str) : Option Str :=
  (((names.zip (vals.map some ++
      List.replicate (names.length - vals.length) none)).reverse.find?
    fun p => p.1 = k).map Prod.snd).join

/-- Per-value normalization of `_parse_csv_output`: strip, restore escaped
newlines, map the empty string to `None`. -/
def normCell (v : Option Str) : Option Str :=
  match v with
  | none => none
  | some s =>
    let s' := unescNl (pstrip s)
    if s'.isEmpty then none else some s'

/-- Parse a header line and a data line with `csv.DictReader` and build the
normalized mapping over the eight canonical fields.  A NUL character in either
line makes the `csv` module raise (`line contains NUL`); the source's
`try/except` then returns `None`. -/
def readHeaderData (header data : Str) : Option Entities :=
  if header.contains '\x00' || data.contains '\x00' then none
  else
    let names := splitRecord header
    if names.isEmpty then none
    else
      let vals := splitRecord data
      let get := fun k => normCell (rowGet names vals (strOf k))
      some ⟨get "autor", get "reu", get "assunto_principal", get "tipo_decisao",
            get "resultado", get "resumo_5_linhas", get "data_decisao",
            get "tribunal"⟩

/-- `LLMExtractor._parse_csv_output`. -/
def parse_csv_output (raw : Str) : Option Entities :=
  if raw.isEmpty then none
  else
    let raw' := pstrip (replCrlf raw)
    let lines := (splitNl raw').filter fun ln => !(pstrip ln).isEmpty
    match lines with
    | [] => none
    | [l] => readHeaderData (List.intercalate [','] CSV_FIELDS) (pstrip l)
    | l :: rest =>
      readHeaderData (pstrip l) (pstrip (List.intercalate ['\n'] rest))

/-! ### `LLMExtractor._extract_csv_block` -/

/-- Python `str.splitlines()` restricted to the `\n`, `\r\n`, `\r`
terminators (the only ones that occur on the verified paths). -/
def pySplitlinesGo : Str → Str → List Str
  | [], acc => if acc.isEmpty then [] else [acc.reverse]
  | '\r' :: '\n' :: r, acc => acc.reverse :: pySplitlinesGo r []
  | '\n' :: r, acc => acc.reverse :: pySplitlinesGo r []
  | '\r' :: r, acc => acc.reverse :: pySplitlinesGo r []
  | c :: r, acc => pySplitlinesGo r (c :: acc)

def pySplitlines (cs : Str) : List Str := pySplitlinesGo cs []

/-- The adjacent-pair loop of `_extract_csv_block`: prefer a pair for which
each of the first three canonical field names occurs in the joined block (or
in its first line). -/
def findHeaderPair : List Str → Option Str
  | a :: b :: r =>
    let block := a ++ '\n' :: b
    if (CSV_FIELDS.take 3).all (fun f => isSub f block || isSub f a) then
      some block
    else findHeaderPair (b :: r)
  | _ => none

/-- `LLMExtractor._extract_csv_block`. -/
def extract_csv_block (text : Str) : Option Str :=
  let candidates := (pySplitlines text).filter fun ln => ln.count ',' ≥ 3
  if candidates.isEmpty then none
  else
    match findHeaderPair candidates with
    | some block => some block
    | none =>
      match candidates with
      | a :: b :: _ => some (a ++ '\n' :: b)
      | _ => none

/-! ## A small Python-`re` engine

`_heuristic_extract` and `TextCleaner.extract_sections` use `re.search` with
fixed patterns.  The engine below is a standard backtracking matcher over the
constructs those patterns use (literals, classes, alternation, lazy/greedy
repetition, one-indexed capture groups, lookahead, lookbehind, `^`, `\Z`,
`\b`), with a fuel argument for totality and a case-insensitivity flag
(`re.IGNORECASE`); ASCII case mapping.  Each source pattern is transcribed
into a `Re` value next to its pattern string. -/

inductive Re where
  | eps
  | lit (c : Char)
  | cls (p : Char → Bool)
  | seq (a b : Re)
  | alt (a b : Re)
  | star (lazy : Bool) (a : Re)
  | grp (i : Nat) (a : Re)
  | lookA (a : Re)
  | lookB (a : Re)
  | bos
  | eoz
  | wordb

def eqChar (ci : Bool) (c c' : Char) : Bool :=
  c = c' || (ci && c.toLower = c'.toLower)

def clsMatch (ci : Bool) (p : Char → Bool) (c : Char) : Bool :=
  p c || (ci && (p c.toLower || p c.toUpper))

/-- Python `\w` (ASCII range). -/
def isWordChar (c : Char) : Bool := c.isAlphanum || c = '_'

def charAt? (s : Str) (i : Nat) : Option Char := s.get? i

/-- One backtracking step: match `re` at position `pos` of `s`, then run the
continuation `k`.  Captures are `(group, start, stop)` triples, most recent
first.  Lookarounds are atomic, a starred body must consume input, and fuel
bounds the recursion. -/
def reMatch (ci : Bool) (s : Str) :
    Nat → Re → Nat → List (Nat × Nat × Nat) →
    (Nat → List (Nat × Nat × Nat) → Option (Nat × List (Nat × Nat × Nat))) →
    Option (Nat × List (Nat × Nat × Nat))
  | 0, _, _, _, _ => none
  | fuel + 1, re, pos, caps, k =>
    match re with
    | .eps => k pos caps
    | .lit c =>
      match charAt? s pos with
      | some c' => if eqChar ci c c' then k (pos + 1) caps else none
      | none => none
    | .cls p =>
      match charAt? s pos with
      | some c' => if clsMatch ci p c' then k (pos + 1) caps else none
      | none => none
    | .seq a b =>
      reMatch ci s fuel a pos caps fun p' cp' => reMatch ci s fuel b p' cp' k
    | .alt a b =>
      (reMatch ci s fuel a pos caps k).orElse fun _ => reMatch ci s fuel b pos caps k
    | .star lz a =>
      let go := reMatch ci s fuel a pos caps fun p' cp' =>
        if p' = pos then none else reMatch ci s fuel (.star lz a) p' cp' k
      if lz then (k pos caps).orElse fun _ => go
      else go.orElse fun _ => k pos caps
    | .grp i a =>
      reMatch ci s fuel a pos caps fun p' cp' => k p' ((i, pos, p') :: cp')
    | .lookA a =>
      match reMatch ci s fuel a pos caps (fun p' cp' => some (p', cp')) with
      | some (_, cp') => k pos cp'
      | none => none
    | .lookB a =>
      match
        (List.range (pos + 1)).findSome? fun j =>
          reMatch ci s fuel a j caps fun p' cp' =>
            if p' = pos then some (p', cp') else none
      with
      | some (_, cp') => k pos cp'
      | none => none
    | .bos => if pos = 0 then k pos caps else none
    | .eoz => if pos = s.length then k pos caps else none
    | .wordb =>
      let right := match charAt? s pos with
        | some c => isWordChar c
        | none => false
      let left := if pos = 0 then false else
        match charAt? s (pos - 1) with
        | some c => isWordChar c
        | none => false
      if left ≠ right then k pos caps else none

/-- Generous fuel for a whole search. -/
def reFuel (s : Str) : Nat := (s.length + 100) * (s.length + 100)

/-- `re.search`: try each start position left to right; returns
`(start, stop, captures)`. -/
def reSearch (ci : Bool) (re : Re) (s : Str) :
    Option (Nat × Nat × List (Nat × Nat × Nat)) :=
  (List.range (s.length + 1)).findSome? fun i =>
    match reMatch ci s (reFuel s) re i [] (fun p cp => some (p, cp)) with
    | some (e, cp) => some (i, e, cp)
    | none => none

def sliceStr (s : Str) (a b : Nat) : Str := (s.take b).drop a

def capGet (caps : List (Nat × Nat × Nat)) (i : Nat) : Option (Nat × Nat) :=
  (caps.find? fun t => t.1 = i).map fun t => t.2

/-- `re.search(...)` followed by `m.group(1)`. -/
def reGroup1 (r : Re) (s : Str) : Option Str :=
  match reSearch true r s with
  | some (_, _, caps) => (capGet caps 1).map fun p => sliceStr s p.1 p.2
  | none => none

/-- `re.search(...)` followed by `m.group(0)`. -/
def reGroup0 (r : Re) (s : Str) : Option Str :=
  match reSearch true r s with
  | some (a, e, _) => some (sliceStr s a e)
  | none => none

/-! Pattern building blocks. -/

def litStr (w : String) : Re := w.data.foldr (fun c acc => Re.seq (.lit c) acc) .eps

def seqList (rs : List Re) : Re := rs.foldr .seq .eps

def altList (rs : List Re) : Re := rs.foldr .alt (.cls fun _ => false)

/-- `.` without DOTALL. -/
def anyNoNl : Re := .cls fun c => c ≠ '\n'

/-- `.` with DOTALL. -/
def anyDot : Re := .cls fun _ => true

/-- `\s`. -/
def wsCls : Re := .cls pyWs

def plusG (a : Re) : Re := .seq a (.star false a)

def plusL (a : Re) : Re := .seq a (.star true a)

def optG (a : Re) : Re := .alt a .eps

def clsUpper : Re := .cls fun c => 'A' ≤ c && c ≤ 'Z'

def clsLower : Re := .cls fun c => 'a' ≤ c && c ≤ 'z'

/-! ## `LLMExtractor._heuristic_extract` -/

/-- Worker for `subWs`: the flag records whether the previous character was
part of a whitespace run (already replaced). -/
def subWsGo : Str → Bool → Str
  | [], _ => []
  | c :: r, inRun =>
    if pyWs c then
      if inRun then subWsGo r true else ' ' :: subWsGo r true
    else c :: subWsGo r false

/-- `re.sub(r"\s+", " ", text)`: each maximal whitespace run becomes one
space. -/
def subWs (cs : Str) : Str := subWsGo cs false

/-- The wrapper appended to every `find_after` key pattern:
`\s*[:\-–]\s*(.+?)(?=\s+[A-Z][a-z]+:|\Z)`, whose content group has index
`gi` in the combined pattern. -/
def faTail (gi : Nat) : Re :=
  seqList
    [.star false wsCls,
     .cls (fun c => c = ':' || c = '-' || c = '–'),
     .star false wsCls,
     .grp gi (plusL anyNoNl),
     .lookA (.alt (seqList [plusG wsCls, clsUpper, plusG clsLower, .lit ':']) .eoz)]

/-- `^(appellant|petitioner|plaintiff|autor|peticioner|petitioner)` + wrapper
(the parenthesized label list is group 1, so `m.group(1)` is the label). -/
def autorPat1 : Re :=
  .seq (.seq .bos (.grp 1 (altList
    [litStr "appellant", litStr "petitioner", litStr "plaintiff",
     litStr "autor", litStr "peticioner", litStr "petitioner"]))) (faTail 2)

/-- `(?<=versus\s).*?(?=\s+v\b)` + wrapper. -/
def autorPat2 : Re :=
  .seq (seqList
    [.lookB (.seq (litStr "versus") wsCls),
     .star true anyNoNl,
     .lookA (seqList [plusG wsCls, .lit 'v', .wordb])]) (faTail 1)

/-- `defendant|respondent|respondent:|réu|respondente` + wrapper.  The key
pattern is interpolated without parentheses, and `|` has the lowest
precedence, so the wrapper (and with it the capture group) belongs to the
*last* alternative only; a match of an earlier alternative has no group 1. -/
def reuPat1 : Re :=
  altList
    [litStr "defendant", litStr "respondent", litStr "respondent:",
     litStr "réu", .seq (litStr "respondente") (faTail 1)]

/-- `versus\s+(.+?)\s` + wrapper (its own group is group 1). -/
def reuPat2 : Re :=
  .seq (seqList
    [litStr "versus", plusG wsCls, .grp 1 (plusL anyNoNl), wsCls]) (faTail 2)

/-- `subject|assunto|matter|case about|challenge to|challenge of` + wrapper
(on the last alternative only). -/
def assuntoPat : Re :=
  altList
    [litStr "subject", litStr "assunto", litStr "matter",
     litStr "case about", litStr "challenge to",
     .seq (litStr "challenge of") (faTail 1)]

/-- `judgment|order|decision|sentença|acórdão|order:` + wrapper (on the last
alternative only). -/
def tipoPat : Re :=
  altList
    [litStr "judgment", litStr "order", litStr "decision",
     litStr "sentença", litStr "acórdão", .seq (litStr "order:") (faTail 1)]

/-- `result|disposition|held that|decided that|order|disposed` + wrapper (on
the last alternative only). -/
def resultadoPat1 : Re :=
  altList
    [litStr "result", litStr "disposition", litStr "held that",
     litStr "decided that", litStr "order",
     .seq (litStr "disposed") (faTail 1)]

/-- `result:` + wrapper. -/
def resultadoPat2 : Re := .seq (litStr "result:") (faTail 1)

/-- `court|tribunal|supreme court|tribunal de` + wrapper (on the last
alternative only). -/
def tribunalPat1 : Re :=
  altList
    [litStr "court", litStr "tribunal", litStr "supreme court",
     .seq (litStr "tribunal de") (faTail 1)]

/-- `in the (supreme court|high court)` + wrapper. -/
def tribunalPat2 : Re :=
  .seq (.seq (litStr "in the ")
    (.grp 1 (.alt (litStr "supreme court") (litStr "high court")))) (faTail 2)

/-- `find_after`: first pattern whose search matches wins and
`m.group(1).strip()` is returned.  When a match used an alternative without
the capture group, `m.group(1)` is `None` and `.strip()` raises
`AttributeError` (modelled as `Except.error`), which propagates out of
`_heuristic_extract` into the attempt loop's `except`. -/
def find_after (t : Str) : List Re → Except Unit (Option Str)
  | [] => .ok none
  | p :: rest =>
    match reSearch true p t with
    | some (_, _, caps) =>
      match capGet caps 1 with
      | some pr => .ok (some (pstrip (sliceStr t pr.1 pr.2)))
      | none => .error ()
    | none => find_after t rest

/-! The direct date pattern of `_heuristic_extract`:
`(\d{1,2}[\/\-]\d{1,2}[\/\-]\d{2,4})`, searched on the raw `text`. -/

def isSep2 (c : Char) : Bool := c = '/' || c = '-'

/-- `\d{2,4}` at the end of the pattern: greedy, so the longest available run
up to four wins. -/
def grabY24 (s : Str) : Option Str :=
  let ds := s.takeWhile pyIsDigit
  if ds.length ≥ 4 then some (ds.take 4)
  else if ds.length ≥ 2 then some ds
  else none

def mdateAt (s : Str) : Option Str :=
  (grab12 s).findSome? fun p =>
    match p.2 with
    | c1 :: r2 =>
      if isSep2 c1 then
        (grab12 r2).findSome? fun q =>
          match q.2 with
          | c2 :: r4 =>
            if isSep2 c2 then
              (grabY24 r4).map fun ys => p.1 ++ c1 :: (q.1 ++ c2 :: ys)
            else none
          | [] => none
      else none
    | [] => none

def mdateSearch : Str → Option Str
  | [] => none
  | c :: r => (mdateAt (c :: r)).orElse fun _ => mdateSearch r

/-- The `out` dictionary `_heuristic_extract` builds, in the source's
evaluation order: label extraction on the whitespace-normalized text, the
date pattern on the raw text, the summary hard-coded to `None`; any
`find_after` crash aborts the whole call. -/
def heurOut (text : Str) : Except Unit Entities :=
  let t := subWs text
  match find_after t [autorPat1, autorPat2] with
  | .error e => .error e
  | .ok autor =>
    match find_after t [reuPat1, reuPat2] with
    | .error e => .error e
    | .ok reu =>
      match find_after t [assuntoPat] with
      | .error e => .error e
      | .ok assunto =>
        match find_after t [tipoPat] with
        | .error e => .error e
        | .ok tipo =>
          match find_after t [resultadoPat1, resultadoPat2] with
          | .error e => .error e
          | .ok resultado =>
            let data := mdateSearch text
            match find_after t [tribunalPat1, tribunalPat2] with
            | .error e => .error e
            | .ok tribunal =>
              .ok ⟨autor, reu, assunto, tipo, resultado, none, data, tribunal⟩

/-- `if not any(out.values()): return None`. -/
def pyAnyValues (e : Entities) : Bool := e.values.any pyTruthy

/-- `LLMExtractor._heuristic_extract`: `Except.error` models the
`AttributeError` escaping from `find_after`. -/
def heuristic_extract (text : Str) : Except Unit (Option Entities) :=
  match heurOut text with
  | .error e => .error e
  | .ok out => .ok (if pyAnyValues out then some out else none)

/-- What the attempt loop observes of the heuristic strategy: a crash is
caught by the `except` around the attempt and ends it exactly like a
`None` return (both fall through to backoff and retry). -/
def heuristicObserved (text : Str) : Option Entities :=
  match heuristic_extract text with
  | .ok r => r
  | .error _ => none

/-! ## `LLMExtractor.extract_entities` -/

/-- The three-strategy parse of one model reply inside `extract_entities`:
strict CSV parse of the reply, then embedded-block extraction re-parsed, then
the heuristic on the original document text. -/
def attemptParse (raw text : Str) : Option Entities :=
  match parse_csv_output raw with
  | some parsed => some parsed
  | none =>
    match extract_csv_block raw with
    | some embedded =>
      match parse_csv_output embedded with
      | some parsed2 => some parsed2
      | none => heuristicObserved text
    | none => heuristicObserved text

/-- One model invocation either raises (caught by the `except` of the attempt
loop) or returns reply text. -/
inductive ModelResp where
  | err
  | ok (raw : Str)

/-- Observable outcome of a run of the attempt loop: the returned value, the
`time.sleep` durations in order, and how many model calls were made. -/
structure ExtractRun where
  result : Option Entities
  sleeps : List Nat
  calls : Nat
deriving DecidableEq, Repr

/-- Outcome of attempt `a`: `none` if the model call raised or no strategy
produced a mapping (the reply is stripped before parsing, as in the source). -/
def attemptOutcome (oracle : Nat → ModelResp) (text : Str) (a : Nat) :
    Option Entities :=
  match oracle a with
  | .err => none
  | .ok raw => attemptParse (pstrip raw) text

/-- The `for attempt in range(1, attempts + 1)` loop of `extract_entities`:
return on the first successful parse; otherwise sleep `2^(attempt-1)` between
consecutive attempts and return `None` after the last. -/
def extractLoop (oracle : Nat → ModelResp) (text : Str) (a attempts : Nat) :
    ExtractRun :=
  if a > attempts then ⟨none, [], 0⟩
  else
    match attemptOutcome oracle text a with
    | some r => ⟨some r, [], 1⟩
    | none =>
      let rest := extractLoop oracle text (a + 1) attempts
      ⟨rest.result, (if a < attempts then [2 ^ (a - 1)] else []) ++ rest.sleeps,
       rest.calls + 1⟩
termination_by attempts + 1 - a

/-- `LLMExtractor.extract_entities` with the model abstracted as an oracle
indexed by attempt number: `attempts = settings.MAX_RETRIES if retry else 1`. -/
def extract_entities (oracle : Nat → ModelResp) (text : Str) (retry : Bool) :
    ExtractRun :=
  extractLoop oracle text 1 (if retry then MAX_RETRIES else 1)

/-! ## `TextCleaner.extract_sections` and `truncate_for_llm`
(src/text_cleaner.py); searched with `re.IGNORECASE | re.DOTALL`. -/

/-- `(?:FACTS?|FATOS|RELAT[ÓO]RIO).*?(?=\n\n)`. -/
def factsPat : Re :=
  seqList
    [altList
      [.seq (litStr "FACT") (optG (.lit 'S')), litStr "FATOS",
       seqList [litStr "RELAT", .cls (fun c => c = 'Ó' || c = 'O'), litStr "RIO"]],
     .star true anyDot, .lookA (litStr "\n\n")]

/-- `(?:ARGUMENTS?|ARGUMENTOS|FUNDAMENTOS?).*?(?=\n\n)`. -/
def argumentsPat : Re :=
  seqList
    [altList
      [.seq (litStr "ARGUMENT") (optG (.lit 'S')), litStr "ARGUMENTOS",
       .seq (litStr "FUNDAMENTO") (optG (.lit 'S'))],
     .star true anyDot, .lookA (litStr "\n\n")]

/-- `(?:DECISION|DECIS[ÃA]O|CONCLUS[ÃA]O|DISPOSITIVO).*`. -/
def decisionPat : Re :=
  .seq
    (altList
      [litStr "DECISION",
       seqList [litStr "DECIS", .cls (fun c => c = 'Ã' || c = 'A'), .lit 'O'],
       seqList [litStr "CONCLUS", .cls (fun c => c = 'Ã' || c = 'A'), .lit 'O'],
       litStr "DISPOSITIVO"])
    (.star false anyDot)

structure Sections where
  header : Str
  facts : Str
  argumentsSec : Str
  decision : Str
  full_text : Str

/-- `TextCleaner.extract_sections`: the `header` key is initialized to the
empty string and never assigned by the pattern loop. -/
def extract_sections (text : Str) : Sections :=
  { header := []
    facts := (reGroup0 factsPat text).getD []
    argumentsSec := (reGroup0 argumentsPat text).getD []
    decision := (reGroup0 decisionPat text).getD []
    full_text := text }

/-- The `priority_text` local of `truncate_for_llm`:
`header[:500] + '\n\n' + decision[:2000] + '\n\n' + facts[:2000]`. -/
def priority_text (text : Str) : Str :=
  (extract_sections text).header.take 500 ++ strOf "\n\n" ++
  (extract_sections text).decision.take 2000 ++ strOf "\n\n" ++
  (extract_sections text).facts.take 2000

/-- `TextCleaner.truncate_for_llm`. -/
def truncate_for_llm (text : Str) (maxTokens : Nat) : Str :=
  let maxChars := maxTokens * 4
  if text.length ≤ maxChars then text
  else
    let priority := priority_text text
    if priority.length > maxChars then priority.take maxChars
    else
      let remaining := maxChars - priority.length
      priority ++ strOf "\n\n" ++ (extract_sections text).full_text.take remaining

/-! ## Spec-side definitions

Used to state the claims in the spec's vocabulary, for comparison with the
definitions above (which are translated from the source). -/

/-- Spec §3: a field is present when it holds a string that is not a
case-insensitive placeholder (`"null"`, `"none"`, `"n/a"`, `""`). -/
def presentB (v : Option Str) : Bool :=
  match v with
  | none => false
  | some s =>
    !(pyLower s = strOf "null" || pyLower s = strOf "none" ||
      pyLower s = strOf "n/a" || pyLower s = [])

/-- No occurrence of the adjacent pair `a, b` in the string (used to state
that a value holds no literal backslash-n sequence). -/
def noAdj (a b : Char) : Str → Bool
  | [] => true
  | [_] => true
  | c :: d :: r => !(c = a && d = b) && noAdj a b (d :: r)

/-- Hypotheses on one field value under which the CSV wire format
round-trips: a present value is non-empty, holds no literal backslash-n
sequence and no NUL character, and its newline-escaped form has no leading
or trailing whitespace. -/
def goodVal (v : Option Str) : Prop :=
  ∀ s, v = some s → s ≠ [] ∧ noAdj '\\' 'n' s = true ∧
    pstrip (escNl s) = escNl s ∧ '\x00' ∉ s

/-- Spec §3/§4.4: an absent field or a placeholder value. -/
def placeholderOrAbsent (v : Option Str) : Prop :=
  v = none ∨ ∃ s, v = some s ∧
    (s = [] ∨ pyLower s = strOf "null" ∨ pyLower s = strOf "none" ∨
     pyLower s = strOf "n/a")

/-! ## Theorems -/

/-- The validators' shared guard accepts exactly the spec's placeholder set
together with the absent value. -/
theorem nullLike_iff (v : Option Str) :
    nullLike v = true ↔ placeholderOrAbsent v := by
  rcases v with _ | s
  · simp [nullLike, placeholderOrAbsent, pyTruthy]
  · rcases s with _ | ⟨c, t⟩
    · simp [nullLike, placeholderOrAbsent, pyTruthy]
    · have hne : pyTruthy (some (c :: t)) = true := by simp [pyTruthy]
      simp only [nullLike, hne, Bool.not_true, Bool.false_or, Bool.or_eq_true,
        decide_eq_true_eq]
      constructor
      · rintro ((h | h) | h) <;>
          exact Or.inr ⟨c :: t, rfl, by simp [h]⟩
      · rintro (h | ⟨s, hs, h⟩)
        · exact absurd h (by simp)
        · obtain rfl : c :: t = s := Option.some.inj hs
          rcases h with h | h | h | h
          · exact absurd h (by simp)
          · exact Or.inl (Or.inl h)
          · exact Or.inl (Or.inr h)
          · exact Or.inr h

/-- The completeness condition of the source coincides with the spec's
present-and-not-placeholder test. -/
theorem filledCond_eq_presentB (v : Option Str) : filledCond v = presentB v := by
  rcases v with _ | (_ | ⟨c, t⟩)
  · rfl
  · decide
  · rfl

/-- The completeness score is exactly the spec-side count over eight. -/
theorem completeness_div (e : Entities) :
    calculate_completeness e = ((e.values.filter presentB).length : ℚ) / 8 := by
  have hfc : e.values.filter filledCond = e.values.filter presentB :=
    List.filter_congr fun v _ => filledCond_eq_presentB v
  simp only [calculate_completeness, filledCount, hfc, CSV_FIELDS]
  norm_num

/-- C3: for every field mapping, `calculate_completeness` is the exact count
of present, non-placeholder canonical fields divided by 8, and lies in
`[0, 1]`; placeholders are the case-insensitive strings `"null"`, `"none"`,
`"n/a"`, `""`. -/
theorem completeness_exact (e : Entities) :
    calculate_completeness e = ((e.values.filter presentB).length : ℚ) / 8 ∧
      0 ≤ calculate_completeness e ∧ calculate_completeness e ≤ 1 := by
  have heq := completeness_div e
  have hlen : (e.values.filter presentB).length ≤ 8 := by
    have h := List.length_filter_le presentB e.values
    have h8 : e.values.length = 8 := by
      rcases e with ⟨a, b, c, d, f, g, i, j⟩
      rfl
    omega
  refine ⟨heq, ?_, ?_⟩
  · rw [heq]
    positivity
  · rw [heq]
    rw [div_le_one (by norm_num : (0 : ℚ) < 8)]
    exact_mod_cast hlen

/-- C4 counterexample: a placeholder summary value does not short-circuit to
`(ok=true, absent, "")` — the summary validator reports failure on it. -/
theorem summary_placeholder_fails :
    validate_summary (some (strOf "null")) =
      ⟨false, none, strOf "Resumo é obrigatório"⟩ ∧
    validate_summary (some (strOf "null")) ≠ ⟨true, none, []⟩ := by decide

/-- C4 (amended): a placeholder or absent value short-circuits the seven
non-summary validators to `(ok=true, absent, "")` before any field-specific
rule runs, and short-circuits the summary validator to
`(ok=false, absent, "Resumo é obrigatório")`; in all eight cases a
placeholder validates identically to an absent (`None`) field. -/
theorem placeholder_short_circuit (v : Option Str)
    (h : placeholderOrAbsent v) :
    validate_party_name v = ⟨true, none, []⟩ ∧
    validate_subject v = ⟨true, none, []⟩ ∧
    validate_decision_type v = ⟨true, none, []⟩ ∧
    validate_result v = ⟨true, none, []⟩ ∧
    validate_date v = ⟨true, none, []⟩ ∧
    validate_court v = ⟨true, none, []⟩ ∧
    validate_summary v = ⟨false, none, strOf "Resumo é obrigatório"⟩ ∧
    validate_party_name v = validate_party_name none ∧
    validate_subject v = validate_subject none ∧
    validate_decision_type v = validate_decision_type none ∧
    validate_result v = validate_result none ∧
    validate_summary v = validate_summary none ∧
    validate_date v = validate_date none ∧
    validate_court v = validate_court none := by
  have hn : nullLike v = true := (nullLike_iff v).mpr h
  have hnone : nullLike (none : Option Str) = true := by decide
  simp [validate_party_name, validate_subject, validate_decision_type,
    validate_result, validate_date, validate_court, validate_summary, hn, hnone]

/-- C4 witness: the amended short-circuit at the placeholder `"N/A"`. -/
theorem placeholder_short_circuit_witness :
    validate_party_name (some (strOf "N/A")) = ⟨true, none, []⟩ ∧
    validate_summary (some (strOf "N/A")) =
      ⟨false, none, strOf "Resumo é obrigatório"⟩ := by
  have h : placeholderOrAbsent (some (strOf "N/A")) :=
    Or.inr ⟨strOf "N/A", rfl, Or.inr (Or.inr (Or.inr (by decide)))⟩
  have hmain := placeholder_short_circuit (some (strOf "N/A")) h
  exact ⟨hmain.1, hmain.2.2.2.2.2.2.1⟩

/-- C5: the summary validator fails exactly on an absent/placeholder value or
a non-empty-line count below the configured minimum; a count above the
configured maximum truncates to the first five lines and still succeeds; and
among all eight validators only the summary one fails on an absent value. -/
theorem summary_spec :
    (∀ v : Option Str, nullLike v = true → (validate_summary v).ok = false) ∧
    (∀ s : Str, nullLike (some s) = false →
      ((validate_summary (some s)).ok = false ↔
        (summaryLines s).length < MIN_SUMMARY_LINES)) ∧
    (∀ s : Str, nullLike (some s) = false →
      (summaryLines s).length > MAX_SUMMARY_LINES →
      validate_summary (some s) =
        ⟨true, some (List.intercalate ['\n']
          ((summaryLines s).take MAX_SUMMARY_LINES)), []⟩) ∧
    ((validate_summary none).ok = false ∧
     (validate_party_name none).ok = true ∧
     (validate_subject none).ok = true ∧
     (validate_decision_type none).ok = true ∧
     (validate_result none).ok = true ∧
     (validate_date none).ok = true ∧
     (validate_court none).ok = true) := by
  refine ⟨?_, ?_, ?_, by decide⟩
  · intro v h
    simp [validate_summary, h]
  · intro s h
    by_cases hlt : (summaryLines s).length < MIN_SUMMARY_LINES
    · simp [validate_summary, h, hlt]
    · by_cases hgt : (summaryLines s).length > MAX_SUMMARY_LINES
      · simp [validate_summary, h, hlt, hgt]
      · simp [validate_summary, h, hlt, hgt]
  · intro s h hgt
    have hlt : ¬ (summaryLines s).length < MIN_SUMMARY_LINES := by
      simp only [MIN_SUMMARY_LINES, MAX_SUMMARY_LINES] at *
      omega
    simp [validate_summary, h, hlt, hgt]

/-- C5 witness: a seven-line summary truncates to its first five lines with
`ok = true`. -/
theorem summary_spec_witness :
    validate_summary (some (strOf "l1\nl2\nl3\nl4\nl5\nl6\nl7")) =
      ⟨true, some (List.intercalate ['\n']
        ((summaryLines (strOf "l1\nl2\nl3\nl4\nl5\nl6\nl7")).take
          MAX_SUMMARY_LINES)), []⟩ ∧
    validate_summary (some (strOf "l1\nl2\nl3\nl4\nl5\nl6\nl7")) =
      ⟨true, some (strOf "l1\nl2\nl3\nl4\nl5"), []⟩ := by
  have h := summary_spec.2.2.1 (strOf "l1\nl2\nl3\nl4\nl5\nl6\nl7")
    (by decide) (by decide)
  exact ⟨h, by decide⟩

/-- C8: the date validator never fails (`ok = true` on every input); on a
non-placeholder value it first tries the ordered layout list and re-renders a
first match canonically as DD/MM/YYYY (so `"March 5, 2021"` normalizes to
`"05/03/2021"`); if no layout matches it falls back to the permissive
numeric-triplet search with zero-padding; and if that also fails it passes
the original value through unchanged. -/
theorem date_validator_spec :
    (∀ v : Option Str, (validate_date v).ok = true) ∧
    validate_date (some (strOf "March 5, 2021")) =
      ⟨true, some (strOf "05/03/2021"), []⟩ ∧
    (∀ s : Str, nullLike (some s) = false →
      (∀ y m d, strptimeFirst s = some (y, m, d) →
        validate_date (some s) = ⟨true, some (renderDMY y m d), []⟩) ∧
      (strptimeFirst s = none → ∀ ds ms ys,
        searchTriplet s = some (ds, ms, ys) →
        validate_date (some s) =
          ⟨true, some (zfill2 ds ++ '/' :: (zfill2 ms ++ '/' :: ys)), []⟩) ∧
      (strptimeFirst s = none → searchTriplet s = none →
        validate_date (some s) = ⟨true, some s, []⟩)) := by
  refine ⟨?_, by decide, ?_⟩
  · intro v
    by_cases h : nullLike v = true
    · simp [validate_date, h]
    · simp only [validate_date, Bool.not_eq_true] at *
      simp only [h, Bool.false_eq_true, if_false]
      rcases hs : strptimeFirst (v.getD []) with _ | ⟨y, m, d⟩
      · rcases ht : searchTriplet (v.getD []) with _ | ⟨ds, ms, ys⟩ <;> simp
      · simp
  · intro s h
    refine ⟨?_, ?_, ?_⟩
    · intro y m d hp
      simp [validate_date, h, hp]
    · intro hp ds ms ys ht
      simp [validate_date, h, hp, ht]
    · intro hp ht
      simp [validate_date, h, hp, ht]

/-- C8 witness: the three branches at concrete dates — a layout match
(`"7-8-2021"`), a triplet fallback (`"on 99/99/2021"`), and a pass-through
(`"whenever"`). -/
theorem date_validator_spec_witness :
    validate_date (some (strOf "7-8-2021")) =
      ⟨true, some (renderDMY 2021 8 7), []⟩ ∧
    validate_date (some (strOf "on 99/99/2021")) =
      ⟨true, some (zfill2 (strOf "99") ++ '/' ::
        (zfill2 (strOf "99") ++ '/' :: strOf "2021")), []⟩ ∧
    validate_date (some (strOf "whenever")) =
      ⟨true, some (strOf "whenever"), []⟩ := by
  refine ⟨((date_validator_spec.2.2 (strOf "7-8-2021") (by decide)).1
      2021 8 7 (by decide)), ?_, ?_⟩
  · exact (date_validator_spec.2.2 (strOf "on 99/99/2021") (by decide)).2.1
      (by decide) (strOf "99") (strOf "99") (strOf "2021") (by decide)
  · exact (date_validator_spec.2.2 (strOf "whenever") (by decide)).2.2
      (by decide) (by decide)

/-! ### C2: retry policy of `extract_entities` -/

theorem extractLoop_done (o : Nat → ModelResp) (t : Str) (a attempts : Nat)
    (h : a > attempts) : extractLoop o t a attempts = ⟨none, [], 0⟩ := by
  rw [extractLoop]
  simp [h]

theorem extractLoop_hit (o : Nat → ModelResp) (t : Str) (a attempts : Nat)
    (r : Entities) (h : ¬ a > attempts) (ho : attemptOutcome o t a = some r) :
    extractLoop o t a attempts = ⟨some r, [], 1⟩ := by
  rw [extractLoop]
  simp [h, ho]

theorem extractLoop_miss (o : Nat → ModelResp) (t : Str) (a attempts : Nat)
    (h : ¬ a > attempts) (ho : attemptOutcome o t a = none) :
    extractLoop o t a attempts =
      ⟨(extractLoop o t (a + 1) attempts).result,
       (if a < attempts then [2 ^ (a - 1)] else []) ++
         (extractLoop o t (a + 1) attempts).sleeps,
       (extractLoop o t (a + 1) attempts).calls + 1⟩ := by
  rw [extractLoop]
  simp [h, ho]

theorem extractLoop_calls_le (o : Nat → ModelResp) (t : Str) (n : Nat) :
    ∀ a attempts, attempts + 1 - a ≤ n →
      (extractLoop o t a attempts).calls ≤ attempts + 1 - a := by
  induction n with
  | zero =>
    intro a attempts h
    have hgt : a > attempts := by omega
    simp [extractLoop_done o t a attempts hgt]
  | succ n ih =>
    intro a attempts h
    by_cases hgt : a > attempts
    · simp [extractLoop_done o t a attempts hgt]
    · rcases ho : attemptOutcome o t a with _ | r
      · rw [extractLoop_miss o t a attempts hgt ho]
        have hr := ih (a + 1) attempts (by omega)
        simp only []
        omega
      · rw [extractLoop_hit o t a attempts r hgt ho]
        simp only []
        omega

/-- C2: with the default configuration (`MAX_RETRIES = 5`, `retry=True`) the
orchestrator makes at most five model calls; a model-side failure of an
attempt is absorbed (the oracle's `err` outcome) rather than propagated, with
a backoff of `2^(attempt-1)` slept between consecutive attempts; five failed
attempts return absent after backoffs `[1, 2, 4, 8]`; and a first successful
parse at attempt `j` returns immediately with exactly `j` calls and backoffs
`2^0 .. 2^(j-2)`. -/
theorem extract_retry_spec (oracle : Nat → ModelResp) (text : Str) :
    (extract_entities oracle text true).calls ≤ MAX_RETRIES ∧
    ((∀ k, 1 ≤ k → k ≤ 5 → attemptOutcome oracle text k = none) →
      extract_entities oracle text true = ⟨none, [1, 2, 4, 8], 5⟩) ∧
    (∀ j r, 1 ≤ j → j ≤ 5 →
      (∀ k, 1 ≤ k → k < j → attemptOutcome oracle text k = none) →
      attemptOutcome oracle text j = some r →
      extract_entities oracle text true =
        ⟨some r, (List.range (j - 1)).map (2 ^ ·), j⟩) := by
  have hee : extract_entities oracle text true = extractLoop oracle text 1 5 := by
    simp [extract_entities, MAX_RETRIES]
  refine ⟨?_, ?_, ?_⟩
  · rw [hee]
    have := extractLoop_calls_le oracle text 5 1 5 (by omega)
    simp [MAX_RETRIES]
    omega
  · intro hfail
    rw [hee,
      extractLoop_miss oracle text 1 5 (by omega) (hfail 1 (by omega) (by omega)),
      extractLoop_miss oracle text 2 5 (by omega) (hfail 2 (by omega) (by omega)),
      extractLoop_miss oracle text 3 5 (by omega) (hfail 3 (by omega) (by omega)),
      extractLoop_miss oracle text 4 5 (by omega) (hfail 4 (by omega) (by omega)),
      extractLoop_miss oracle text 5 5 (by omega) (hfail 5 (by omega) (by omega)),
      extractLoop_done oracle text 6 5 (by omega)]
    norm_num
  · intro j r h1 h5 hprev hj
    interval_cases j
    · rw [hee, extractLoop_hit oracle text 1 5 r (by omega) hj]
      simp
    · rw [hee,
        extractLoop_miss oracle text 1 5 (by omega) (hprev 1 (by omega) (by omega)),
        extractLoop_hit oracle text 2 5 r (by omega) hj]
      norm_num
      decide
    · rw [hee,
        extractLoop_miss oracle text 1 5 (by omega) (hprev 1 (by omega) (by omega)),
        extractLoop_miss oracle text 2 5 (by omega) (hprev 2 (by omega) (by omega)),
        extractLoop_hit oracle text 3 5 r (by omega) hj]
      norm_num
      decide
    · rw [hee,
        extractLoop_miss oracle text 1 5 (by omega) (hprev 1 (by omega) (by omega)),
        extractLoop_miss oracle text 2 5 (by omega) (hprev 2 (by omega) (by omega)),
        extractLoop_miss oracle text 3 5 (by omega) (hprev 3 (by omega) (by omega)),
        extractLoop_hit oracle text 4 5 r (by omega) hj]
      norm_num
      decide
    · rw [hee,
        extractLoop_miss oracle text 1 5 (by omega) (hprev 1 (by omega) (by omega)),
        extractLoop_miss oracle text 2 5 (by omega) (hprev 2 (by omega) (by omega)),
        extractLoop_miss oracle text 3 5 (by omega) (hprev 3 (by omega) (by omega)),
        extractLoop_miss oracle text 4 5 (by omega) (hprev 4 (by omega) (by omega)),
        extractLoop_hit oracle text 5 5 r (by omega) hj]
      norm_num
      decide

/-- C2 witness: an oracle whose every call raises exhausts the five attempts
with backoffs `[1, 2, 4, 8]` and returns absent; an oracle that returns a
valid values-only CSV line succeeds on the first attempt with no backoff. -/
theorem extract_retry_spec_witness :
    extract_entities (fun _ => .err) (strOf "") true = ⟨none, [1, 2, 4, 8], 5⟩ ∧
    extract_entities (fun _ => .ok (strOf "a,b,c,d,e,f,g,h")) (strOf "") true =
      ⟨some ⟨some (strOf "a"), some (strOf "b"), some (strOf "c"),
        some (strOf "d"), some (strOf "e"), some (strOf "f"), some (strOf "g"),
        some (strOf "h")⟩, [], 1⟩ := by
  constructor
  · exact (extract_retry_spec (fun _ => .err) (strOf "")).2.1
      (fun k _ _ => rfl)
  · have h := (extract_retry_spec (fun _ => .ok (strOf "a,b,c,d,e,f,g,h"))
      (strOf "")).2.2 1
      ⟨some (strOf "a"), some (strOf "b"), some (strOf "c"), some (strOf "d"),
       some (strOf "e"), some (strOf "f"), some (strOf "g"), some (strOf "h")⟩
      (by omega) (by omega) (fun k hk hk' => by omega) (by decide)
    simpa using h

/-! ### C7 / C10: the strategy chain and the heuristic extractor -/

/-- Whatever label values the regex searches deliver, a returned heuristic
`out` dictionary has `None` in the summary slot and the direct digit-pattern
date in the date slot. -/
theorem heurOut_shape (text : Str) (out : Entities)
    (h : heurOut text = .ok out) :
    out.resumo_5_linhas = none ∧ out.data_decisao = mdateSearch text := by
  simp only [heurOut] at h
  rcases h1 : find_after (subWs text) [autorPat1, autorPat2] with e | a <;>
    rw [h1] at h
  · exact absurd h (by simp)
  rcases h2 : find_after (subWs text) [reuPat1, reuPat2] with e | b <;>
    rw [h2] at h
  · exact absurd h (by simp)
  rcases h3 : find_after (subWs text) [assuntoPat] with e | c <;>
    rw [h3] at h
  · exact absurd h (by simp)
  rcases h4 : find_after (subWs text) [tipoPat] with e | d <;>
    rw [h4] at h
  · exact absurd h (by simp)
  rcases h5 : find_after (subWs text) [resultadoPat1, resultadoPat2] with e | f <;>
    rw [h5] at h
  · exact absurd h (by simp)
  rcases h6 : find_after (subWs text) [tribunalPat1, tribunalPat2] with e | g <;>
    rw [h6] at h
  · exact absurd h (by simp)
  obtain rfl : (⟨a, b, c, d, f, none, mdateSearch text, g⟩ : Entities) = out :=
    Except.ok.inj h
  exact ⟨rfl, rfl⟩

/-- A mapping observed from the heuristic strategy keeps the `heurOut`
shape. -/
theorem heuristicObserved_shape (text : Str) (m : Entities)
    (h : heuristicObserved text = some m) :
    m.resumo_5_linhas = none ∧ m.data_decisao = mdateSearch text := by
  simp only [heuristicObserved, heuristic_extract] at h
  rcases ho : heurOut text with e | out <;> rw [ho] at h
  · exact absurd h (by simp)
  · by_cases ha : pyAnyValues out = true
    · simp only [ha, if_true] at h
      injection h with h2
      subst h2
      exact heurOut_shape text out ho
    · simp only [Bool.not_eq_true] at ha
      simp [ha] at h

/-- C7 counterexample: a prose reply with no CSV-like structure (no comma,
one line) is consumed by the strict parser — everything lands in the first
field — so the pipeline's result is not the heuristic extraction of the
source text (whose date slot would carry the date found in the source). -/
theorem prose_reply_not_heuristic :
    (strOf "I cannot help with that").count ',' = 0 ∧
    attemptParse (strOf "I cannot help with that")
        (strOf "Decided on 01/02/2021.") =
      some ⟨some (strOf "I cannot help with that"), none, none, none, none,
            none, none, none⟩ ∧
    attemptParse (strOf "I cannot help with that")
        (strOf "Decided on 01/02/2021.") ≠
      heuristicObserved (strOf "Decided on 01/02/2021.") := by
  refine ⟨by decide, by decide, ?_⟩
  intro h
  rcases hro : heuristicObserved (strOf "Decided on 01/02/2021.") with _ | m
  · rw [hro] at h
    rw [show attemptParse (strOf "I cannot help with that")
        (strOf "Decided on 01/02/2021.") =
      some ⟨some (strOf "I cannot help with that"), none, none, none, none,
            none, none, none⟩ from by decide] at h
    exact Option.noConfusion h
  · have hshape := heuristicObserved_shape _ m hro
    rw [hro] at h
    rw [show attemptParse (strOf "I cannot help with that")
        (strOf "Decided on 01/02/2021.") =
      some ⟨some (strOf "I cannot help with that"), none, none, none, none,
            none, none, none⟩ from by decide] at h
    obtain rfl := Option.some.inj h
    have hdate : mdateSearch (strOf "Decided on 01/02/2021.") =
        some (strOf "01/02/2021") := by decide
    rw [hdate] at hshape
    exact Option.noConfusion hshape.2

/-- C7 (amended): the strategies run in fixed order, first non-absent result
winning: a strict parse wins outright; a reply failing strict parse whose
embedded CSV-dense block parses yields exactly the embedded result; when the
strict parse fails, the pipeline yields the heuristic result on the original
source text exactly when the embedded block is absent or fails to parse (in
particular on an empty reply); the heuristic result is observed through the
attempt's exception handler.  (A reply with a non-blank NUL-free line is
consumed by the strict parser, so non-CSV prose does not reach the heuristic
— see the counterexample.) -/
theorem strategy_order (raw text : Str) :
    (∀ p, parse_csv_output raw = some p → attemptParse raw text = some p) ∧
    (∀ b p, parse_csv_output raw = none → extract_csv_block raw = some b →
      parse_csv_output b = some p → attemptParse raw text = some p) ∧
    (parse_csv_output raw = none →
      (∀ b, extract_csv_block raw = some b → parse_csv_output b = none →
        attemptParse raw text = heuristicObserved text) ∧
      (extract_csv_block raw = none →
        attemptParse raw text = heuristicObserved text)) ∧
    (∀ t : Str, attemptParse [] t = heuristicObserved t) := by
  refine ⟨?_, ?_, ?_, ?_⟩
  · intro p hp
    simp [attemptParse, hp]
  · intro b p hp hb hp2
    simp [attemptParse, hp, hb, hp2]
  · intro hp
    constructor
    · intro b hb hp2
      simp [attemptParse, hp, hb, hp2]
    · intro hb
      simp [attemptParse, hp, hb]
  · intro t
    rfl

/-- C7 witness: a reply whose first line holds a NUL character (making the
strict parse raise inside `csv`) followed by a CSV-dense pair of lines: the
pipeline returns exactly the embedded block's parse. -/
theorem strategy_order_witness :
    attemptParse (strOf "junk \x00 junk\nautor,reu,assunto_principal,x\n1,2,3,4")
        (strOf "") =
      some ⟨some (strOf "1"), some (strOf "2"), some (strOf "3"),
            none, none, none, none, none⟩ := by
  exact (strategy_order
      (strOf "junk \x00 junk\nautor,reu,assunto_principal,x\n1,2,3,4")
      (strOf "")).2.1
    (strOf "autor,reu,assunto_principal,x\n1,2,3,4")
    ⟨some (strOf "1"), some (strOf "2"), some (strOf "3"), none,
     none, none, none, none⟩
    (by decide) (by decide) (by decide)

/-- C10 counterexample: on the text `"order"` the heuristic extractor does
not return at all — the `order` alternative of the decision-type pattern
matches without the capture group, `m.group(1)` is `None`, and `.strip()`
raises `AttributeError`. -/
theorem heuristic_crash_on_order :
    heuristic_extract (strOf "order") = .error () ∧
    ∀ r, heuristic_extract (strOf "order") ≠ .ok r := by
  have h : heuristic_extract (strOf "order") = .error () := by rfl
  exact ⟨h, fun r hr => by rw [h] at hr; exact Except.noConfusion hr⟩

/-- C10 (amended): whenever the heuristic extractor returns (it can instead
raise, which the attempt loop catches as a failed attempt), the result is
absent or a mapping whose summary field is absent; and any mapping it
returns has completeness at most 7/8 and fails validation, the summary being
required. -/
theorem heuristic_never_summary (text : Str) :
    (heuristic_extract text = .error () ∨
     heuristic_extract text = .ok none ∨
     ∃ m, heuristic_extract text = .ok (some m) ∧
       m.resumo_5_linhas = none) ∧
    (∀ m, heuristic_extract text = .ok (some m) →
      m.resumo_5_linhas = none ∧
      calculate_completeness m ≤ 7 / 8 ∧
      (validate m).1 = false) := by
  have hpart : ∀ m, heuristic_extract text = .ok (some m) →
      m.resumo_5_linhas = none := by
    intro m hm
    simp only [heuristic_extract] at hm
    rcases ho : heurOut text with e | out <;> rw [ho] at hm
    · exact absurd hm (by simp)
    · by_cases ha : pyAnyValues out = true
      · simp only [ha, if_true] at hm
        have h2 : some out = some m := Except.ok.inj hm
        injection h2 with h3
        subst h3
        exact (heurOut_shape text out ho).1
      · simp only [Bool.not_eq_true] at ha
        simp [ha] at hm
  constructor
  · rcases hh : heuristic_extract text with e | (_ | m)
    · cases e
      exact Or.inl rfl
    · exact Or.inr (Or.inl rfl)
    · exact Or.inr (Or.inr ⟨m, rfl, hpart m hh⟩)
  · intro m hm
    have hres := hpart m hm
    refine ⟨hres, ?_, ?_⟩
    · rw [completeness_div m]
      have hsplit : m.values =
          [m.autor, m.reu, m.assunto_principal, m.tipo_decisao, m.resultado] ++
          [m.resumo_5_linhas] ++ [m.data_decisao, m.tribunal] := rfl
      have hcount : (m.values.filter presentB).length ≤ 7 := by
        rw [hsplit, List.filter_append, List.filter_append,
          List.length_append, List.length_append]
        have h1 := List.length_filter_le presentB
          [m.autor, m.reu, m.assunto_principal, m.tipo_decisao, m.resultado]
        have h2 := List.length_filter_le presentB [m.data_decisao, m.tribunal]
        have h3 : ([m.resumo_5_linhas].filter presentB).length = 0 := by
          rw [hres]
          decide
        simp only [List.length_cons, List.length_nil] at h1 h2
        omega
      have h7 : ((m.values.filter presentB).length : ℚ) ≤ 7 := by
        exact_mod_cast hcount
      gcongr
    · have h6 : (validate_summary m.resumo_5_linhas) =
          ⟨false, none, strOf "Resumo é obrigatório"⟩ := by
        rw [hres]
        decide
      simp only [validate, h6]
      simp [List.isEmpty_iff, List.append_eq_nil]

/-- C10 witness: on the text `"1/1/99"` the heuristic returns a mapping whose
only present field is the date; its completeness is below 7/8 and it fails
validation. -/
theorem heuristic_never_summary_witness :
    heuristic_extract (strOf "1/1/99") =
      .ok (some ⟨none, none, none, none, none, none,
        some (strOf "1/1/99"), none⟩) ∧
    calculate_completeness
      ⟨none, none, none, none, none, none, some (strOf "1/1/99"), none⟩ ≤
      7 / 8 ∧
    (validate ⟨none, none, none, none, none, none,
      some (strOf "1/1/99"), none⟩).1 = false := by
  have h : heuristic_extract (strOf "1/1/99") =
      .ok (some ⟨none, none, none, none, none, none,
        some (strOf "1/1/99"), none⟩) := by rfl
  have hm := (heuristic_never_summary (strOf "1/1/99")).2
    ⟨none, none, none, none, none, none, some (strOf "1/1/99"), none⟩ h
  exact ⟨h, hm.2.1, hm.2.2⟩

/-! ### C9: `truncate_for_llm` -/

/-- C9 counterexample: the padded branch exceeds the character budget — with
a 10-token budget (40 characters) a 45-character text yields a 42-character
result. -/
theorem truncate_exceeds_budget :
    (truncate_for_llm (strOf "xxxxxxxxxxxxxxxxxxxxxxxxxxxxxxxxxxxxxxxxxxxxx")
      10).length = 42 ∧
    10 * 4 < (truncate_for_llm
      (strOf "xxxxxxxxxxxxxxxxxxxxxxxxxxxxxxxxxxxxxxxxxxxxx") 10).length := by
  exact ⟨by rfl, by decide⟩

/-- In the padded branch the result is the composite, a two-character joiner
and the remainder of the original text, of total length exactly budget + 2. -/
theorem truncate_padded (text : Str) (maxTokens : Nat)
    (h1 : ¬ text.length ≤ maxTokens * 4)
    (h2 : ¬ (priority_text text).length > maxTokens * 4) :
    truncate_for_llm text maxTokens =
      priority_text text ++ strOf "\n\n" ++
        text.take (maxTokens * 4 - (priority_text text).length) ∧
    (truncate_for_llm text maxTokens).length = maxTokens * 4 + 2 := by
  have hfull : (extract_sections text).full_text = text := rfl
  have heq : truncate_for_llm text maxTokens =
      priority_text text ++ strOf "\n\n" ++
        text.take (maxTokens * 4 - (priority_text text).length) := by
    simp only [truncate_for_llm, h1, if_false, h2, if_false, hfull]
  refine ⟨heq, ?_⟩
  rw [heq, List.length_append, List.length_append, List.length_take]
  have h3 : (strOf "\n\n").length = 2 := rfl
  rw [h3]
  omega

/-- C9 (amended): `truncate_for_llm` budgets four characters per token and
returns the input unchanged when it fits; otherwise it builds the prioritized
composite — the first 500 characters of the (always empty) header section,
up to 2000 characters of the decision-section match and up to 2000 of the
facts-section match — truncating the composite to the budget when it alone
overflows, and otherwise padding it with the remainder of the original text;
in the padded branch the result length is exactly the budget plus the final
two-character joiner, so the overall bound is budget + 2, not the budget
itself. -/
theorem truncate_spec (text : Str) (maxTokens : Nat) :
    (text.length ≤ maxTokens * 4 → truncate_for_llm text maxTokens = text) ∧
    (truncate_for_llm text maxTokens).length ≤ maxTokens * 4 + 2 ∧
    (text.length > maxTokens * 4 →
      ((priority_text text).length > maxTokens * 4 →
        truncate_for_llm text maxTokens =
          (priority_text text).take (maxTokens * 4)) ∧
      ((priority_text text).length ≤ maxTokens * 4 →
        truncate_for_llm text maxTokens =
          priority_text text ++ strOf "\n\n" ++
            text.take (maxTokens * 4 - (priority_text text).length) ∧
        (truncate_for_llm text maxTokens).length = maxTokens * 4 + 2)) := by
  refine ⟨?_, ?_, ?_⟩
  · intro h
    simp [truncate_for_llm, h]
  · by_cases h : text.length ≤ maxTokens * 4
    · simp [truncate_for_llm, h]
      omega
    · by_cases h2 : (priority_text text).length > maxTokens * 4
      · have heq : truncate_for_llm text maxTokens =
            (priority_text text).take (maxTokens * 4) := by
          simp only [truncate_for_llm, h, if_false, h2, if_true]
        rw [heq, List.length_take]
        omega
      · rw [(truncate_padded text maxTokens h h2).2]
  · intro h
    have h1 : ¬ text.length ≤ maxTokens * 4 := by omega
    constructor
    · intro h2
      simp only [truncate_for_llm, h1, if_false, h2, if_true]
    · intro h2
      exact truncate_padded text maxTokens h1 (by omega)

/-- C9 witness: the unchanged branch at a fitting text, and the padded branch
at the counterexample text. -/
theorem truncate_spec_witness :
    truncate_for_llm (strOf "short text") 7000 = strOf "short text" ∧
    (truncate_for_llm (strOf "xxxxxxxxxxxxxxxxxxxxxxxxxxxxxxxxxxxxxxxxxxxxx")
      10).length = 10 * 4 + 2 := by
  constructor
  · exact (truncate_spec (strOf "short text") 7000).1 (by decide)
  · exact (((truncate_spec
      (strOf "xxxxxxxxxxxxxxxxxxxxxxxxxxxxxxxxxxxxxxxxxxxxx") 10).2.2
      (by decide)).2 (by decide)).2

/-! ### C1: the CSV wire-format round trip — groundwork -/

theorem noAdj_tail {a b c : Char} {r : Str}
    (h : noAdj a b (c :: r) = true) : noAdj a b r = true := by
  cases r with
  | nil => rfl
  | cons d t =>
    simp only [noAdj, Bool.and_eq_true] at h
    exact h.2

theorem escNl_no_nl (s : Str) : '\n' ∉ escNl s := by
  induction s with
  | nil => simp [escNl]
  | cons c r ih =>
    rw [escNl]
    by_cases hc : c = '\n'
    · rw [if_pos hc]
      simp only [List.mem_cons]
      rintro (h | h | h)
      · exact absurd h (by decide)
      · exact absurd h (by decide)
      · exact ih h
    · simp only [if_neg hc, List.mem_cons]
      rintro (h | h)
      · exact hc h.symm
      · exact ih h

theorem mem_escNl {c : Char} {s : Str} (h : c ∈ escNl s) :
    c ∈ s ∨ c = '\\' ∨ c = 'n' := by
  induction s with
  | nil => simp [escNl] at h
  | cons d r ih =>
    rw [escNl] at h
    by_cases hd : d = '\n'
    · rw [if_pos hd] at h
      simp only [List.mem_cons] at h
      rcases h with h | h | h
      · exact Or.inr (Or.inl h)
      · exact Or.inr (Or.inr h)
      · rcases ih h with h' | h' | h'
        · exact Or.inl (List.mem_cons_of_mem d h')
        · exact Or.inr (Or.inl h')
        · exact Or.inr (Or.inr h')
    · rw [if_neg hd] at h
      simp only [List.mem_cons] at h
      rcases h with h | h
      · exact Or.inl (by simp [h])
      · rcases ih h with h' | h' | h'
        · exact Or.inl (List.mem_cons_of_mem d h')
        · exact Or.inr (Or.inl h')
        · exact Or.inr (Or.inr h')

theorem escNl_ne_nil {s : Str} (h : s ≠ []) : escNl s ≠ [] := by
  cases s with
  | nil => exact absurd rfl h
  | cons c r =>
    rw [escNl]
    by_cases hc : c = '\n' <;> simp [hc]

theorem unescNl_escNl {s : Str} (h : noAdj '\\' 'n' s = true) :
    unescNl (escNl s) = s := by
  induction s with
  | nil => rfl
  | cons c r ih =>
    have hr : noAdj '\\' 'n' r = true := noAdj_tail h
    rw [escNl]
    by_cases hc : c = '\n'
    · rw [if_pos hc, unescNl, if_pos ⟨rfl, rfl⟩, ih hr, hc]
    · rw [if_neg hc]
      cases hre : escNl r with
      | nil =>
        have hr0 : r = [] := by
          cases r with
          | nil => rfl
          | cons d t => exact absurd hre (escNl_ne_nil (by simp))
        rw [hr0, unescNl]
      | cons d t =>
        rw [unescNl]
        have hnot : ¬(c = '\\' ∧ d = 'n') := by
          rintro ⟨rfl, rfl⟩
          cases r with
          | nil => simp [escNl] at hre
          | cons e t2 =>
            rw [escNl] at hre
            by_cases he : e = '\n'
            · rw [if_pos he] at hre
              exact absurd (List.cons.inj hre).1 (by decide)
            · rw [if_neg he] at hre
              have he2 : e = 'n' := (List.cons.inj hre).1
              rw [he2, noAdj] at h
              simp at h
        rw [if_neg hnot, ← hre, ih hr]

theorem replCrlf_id {cs : Str} (h : '\n' ∉ cs) : replCrlf cs = cs := by
  induction cs with
  | nil => rfl
  | cons a t ih =>
    cases t with
    | nil => rfl
    | cons b r =>
      rw [replCrlf]
      have hb : ¬(a = '\r' ∧ b = '\n') := by
        rintro ⟨-, rfl⟩
        exact h (by simp)
      rw [if_neg hb, ih (fun hm => h (List.mem_cons_of_mem a hm))]

theorem splitNl_cons (c : Char) (r : Str) :
    splitNl (c :: r) = if c = '\n' then [] :: splitNl r
      else (c :: (splitNl r).headD []) :: (splitNl r).drop 1 := rfl

theorem splitNl_no_nl {cs : Str} (h : '\n' ∉ cs) : splitNl cs = [cs] := by
  induction cs with
  | nil => rfl
  | cons c r ih =>
    have hc : ¬ c = '\n' := fun hc => h (by simp [hc])
    rw [splitNl_cons, if_neg hc, ih (fun hm => h (List.mem_cons_of_mem c hm))]
    simp

/-! Strip-stability facts, via `List.rdropWhile`. -/

theorem pstrip_eq (cs : Str) :
    pstrip cs = List.rdropWhile pyWs (List.dropWhile pyWs cs) := rfl

theorem pstrip_parts {cs : Str} (h : pstrip cs = cs) :
    List.dropWhile pyWs cs = cs ∧ List.rdropWhile pyWs cs = cs := by
  have hsub1 : (List.dropWhile pyWs cs).Sublist cs :=
    (List.dropWhile_suffix pyWs).sublist
  have hsub2 : (List.rdropWhile pyWs (List.dropWhile pyWs cs)).Sublist
      (List.dropWhile pyWs cs) :=
    (List.rdropWhile_prefix pyWs (List.dropWhile pyWs cs)).sublist
  have hlen : cs.length ≤ (List.dropWhile pyWs cs).length := by
    conv_lhs => rw [← h, pstrip_eq]
    exact hsub2.length_le
  have h1 : List.dropWhile pyWs cs = cs :=
    hsub1.eq_of_length (le_antisymm hsub1.length_le hlen)
  refine ⟨h1, ?_⟩
  have h2 := h
  rw [pstrip_eq, h1] at h2
  exact h2

theorem pstrip_self_of (cs : Str)
    (h1 : List.dropWhile pyWs cs = cs) (h2 : List.rdropWhile pyWs cs = cs) :
    pstrip cs = cs := by
  rw [pstrip_eq, h1, h2]

theorem stable_head {cs : Str} {c : Char} {t : Str}
    (h : pstrip cs = cs) (hc : cs = c :: t) : pyWs c = false := by
  have h1 := (pstrip_parts h).1
  subst hc
  by_cases hw : pyWs c = true
  · rw [List.dropWhile_cons, if_pos hw] at h1
    have hle : (List.dropWhile pyWs t).length ≤ t.length :=
      ((List.dropWhile_suffix pyWs).sublist).length_le
    have := congrArg List.length h1
    simp only [List.length_cons] at this
    omega
  · exact Bool.eq_false_iff.mpr hw

theorem stable_last {cs : Str} {c : Char}
    (h : pstrip cs = cs) (hc : cs.getLast? = some c) : pyWs c = false := by
  have h2 := (pstrip_parts h).2
  have hne : cs ≠ [] := by
    intro h0
    rw [h0] at hc
    simp at hc
  have hx := List.rdropWhile_eq_self_iff.mp h2 hne
  have hgl : cs.getLast hne = c := by
    have := List.getLast?_eq_getLast_of_ne_nil hne
    rw [this] at hc
    exact Option.some.inj hc
  rw [hgl] at hx
  exact Bool.eq_false_iff.mpr hx

theorem pstrip_self_head_last (cs : Str)
    (hh : ∀ c t, cs = c :: t → pyWs c = false)
    (hl : ∀ c, cs.getLast? = some c → pyWs c = false) : pstrip cs = cs := by
  rcases cs with _ | ⟨c, t⟩
  · rfl
  · apply pstrip_self_of
    · rw [List.dropWhile_cons, if_neg]
      rw [hh c t rfl]
      simp
    · rw [List.rdropWhile_eq_self_iff]
      intro hne
      have := hl _ (List.getLast?_eq_getLast_of_ne_nil hne)
      rw [this]
      simp

theorem pstrip_drop_crlf (cs : Str) (h : List.dropWhile pyWs cs = cs) :
    pstrip (cs ++ ['\r', '\n']) = List.rdropWhile pyWs cs := by
  have htwo : cs ++ ['\r', '\n'] = (cs ++ ['\r']) ++ ['\n'] := by
    simp
  cases hcs : cs with
  | nil =>
    simp only [List.nil_append]
    rfl
  | cons c t =>
    have hc : pyWs c = false := by
      rw [hcs] at h
      by_cases hw : pyWs c = true
      · rw [List.dropWhile_cons, if_pos hw] at h
        have hle : (List.dropWhile pyWs t).length ≤ t.length :=
          ((List.dropWhile_suffix pyWs).sublist).length_le
        have := congrArg List.length h
        simp only [List.length_cons] at this
        omega
      · exact Bool.eq_false_iff.mpr hw
    rw [← hcs, pstrip_eq, htwo]
    have hdw : List.dropWhile pyWs ((cs ++ ['\r']) ++ ['\n']) =
        (cs ++ ['\r']) ++ ['\n'] := by
      rw [hcs]
      simp only [List.cons_append]
      rw [List.dropWhile_cons, if_neg (by rw [hc]; simp)]
    rw [hdw, List.rdropWhile_concat_pos pyWs _ '\n' (by decide),
      List.rdropWhile_concat_pos pyWs _ '\r' (by decide)]

/-! Scanner-versus-writer lemmas: reading back one written field. -/

theorem csvRun_fs_comma (r : Str) (acc : Str) :
    csvRun (',' :: r) CState.fs acc = [] :: csvRun r CState.fs [] := rfl

theorem csvRun_fs_quote (r : Str) (acc : Str) :
    csvRun ('"' :: r) CState.fs acc = csvRun r CState.inq [] := rfl

theorem csvRun_fs_other {c : Char} (h1 : ¬ c = ',') (h2 : ¬ c = '"')
    (h3 : ¬ c = '\n') (r : Str) (acc : Str) :
    csvRun (c :: r) CState.fs acc = csvRun r CState.unq [c] := by
  simp only [csvRun, if_neg h1, if_neg h2, if_neg h3]

theorem csvRun_unq_step_comma (r : Str) (acc : Str) :
    csvRun (',' :: r) CState.unq acc =
      acc.reverse :: csvRun r CState.fs [] := rfl

theorem csvRun_unq_step_other {c : Char} (h1 : ¬ c = ',') (h3 : ¬ c = '\n')
    (r : Str) (acc : Str) :
    csvRun (c :: r) CState.unq acc = csvRun r CState.unq (c :: acc) := by
  simp only [csvRun, if_neg h1, if_neg h3]

theorem csvRun_inq_step_quote (r : Str) (acc : Str) :
    csvRun ('"' :: r) CState.inq acc = csvRun r CState.postq acc := rfl

theorem csvRun_inq_step_other {c : Char} (hc : ¬ c = '"') (r : Str)
    (acc : Str) :
    csvRun (c :: r) CState.inq acc = csvRun r CState.inq (c :: acc) := by
  simp only [csvRun, if_neg hc]

theorem csvRun_postq_step_quote (r : Str) (acc : Str) :
    csvRun ('"' :: r) CState.postq acc = csvRun r CState.inq ('"' :: acc) := rfl

theorem csvRun_postq_step_comma (r : Str) (acc : Str) :
    csvRun (',' :: r) CState.postq acc =
      acc.reverse :: csvRun r CState.fs [] := rfl

theorem csvRun_unq_end {cs : Str} (h : ∀ c ∈ cs, c ≠ ',' ∧ c ≠ '\n')
    (acc : Str) : csvRun cs CState.unq acc = [acc.reverse ++ cs] := by
  induction cs generalizing acc with
  | nil => simp [csvRun]
  | cons c r ih =>
    have hc := h c (by simp)
    rw [csvRun_unq_step_other hc.1 hc.2,
      ih (fun x hx => h x (by simp [hx])) (c :: acc)]
    simp

theorem csvRun_unq_comma {cs : Str} (h : ∀ c ∈ cs, c ≠ ',' ∧ c ≠ '\n')
    (acc rest : Str) :
    csvRun (cs ++ ',' :: rest) CState.unq acc =
      (acc.reverse ++ cs) :: csvRun rest CState.fs [] := by
  induction cs generalizing acc with
  | nil =>
    rw [List.nil_append, csvRun_unq_step_comma, List.append_nil]
  | cons c r ih =>
    have hc := h c (by simp)
    rw [List.cons_append, csvRun_unq_step_other hc.1 hc.2,
      ih (fun x hx => h x (by simp [hx])) (c :: acc)]
    simp

theorem csvRun_inq_end (f : Str) (acc : Str) :
    csvRun (dqDouble f ++ ['"']) CState.inq acc = [acc.reverse ++ f] := by
  induction f generalizing acc with
  | nil => simp [dqDouble, csvRun]
  | cons c r ih =>
    rw [dqDouble]
    by_cases hc : c = '"'
    · subst hc
      rw [if_pos rfl, List.cons_append, List.cons_append,
        csvRun_inq_step_quote, csvRun_postq_step_quote, ih ('"' :: acc)]
      simp
    · rw [if_neg hc, List.cons_append, csvRun_inq_step_other hc,
        ih (c :: acc)]
      simp

theorem csvRun_inq_comma (f : Str) (acc rest : Str) :
    csvRun (dqDouble f ++ '"' :: ',' :: rest) CState.inq acc =
      (acc.reverse ++ f) :: csvRun rest CState.fs [] := by
  induction f generalizing acc with
  | nil =>
    rw [dqDouble, List.nil_append, csvRun_inq_step_quote,
      csvRun_postq_step_comma, List.append_nil]
  | cons c r ih =>
    rw [dqDouble]
    by_cases hc : c = '"'
    · subst hc
      rw [if_pos rfl, List.cons_append, List.cons_append,
        csvRun_inq_step_quote, csvRun_postq_step_quote, ih ('"' :: acc)]
      simp
    · rw [if_neg hc, List.cons_append, csvRun_inq_step_other hc,
        ih (c :: acc)]
      simp

theorem needsQuote_false_plain {f : Str} (hq : needsQuote f = false) :
    ∀ c ∈ f, c ≠ ',' ∧ c ≠ '"' ∧ c ≠ '\n' := by
  intro c hc
  rw [needsQuote, List.any_eq_false] at hq
  have h := hq c hc
  simp only [Bool.or_eq_true, decide_eq_true_eq, not_or] at h
  exact ⟨h.1.1.1, h.1.1.2, h.2⟩

theorem csvRun_wf_comma {f : Str} (hf : '\n' ∉ f) (rest : Str) :
    csvRun (writeField f ++ ',' :: rest) CState.fs [] =
      f :: csvRun rest CState.fs [] := by
  rw [writeField]
  by_cases hq : needsQuote f = true
  · rw [if_pos hq]
    have hshape : ('"' :: (dqDouble f ++ ['"'])) ++ ',' :: rest =
        '"' :: (dqDouble f ++ '"' :: ',' :: rest) := by simp
    rw [hshape, csvRun_fs_quote]
    have h := csvRun_inq_comma f [] rest
    simpa using h
  · have hq' : needsQuote f = false := by simpa using hq
    rw [if_neg hq]
    have hplain := needsQuote_false_plain hq'
    cases f with
    | nil => simp [csvRun_fs_comma]
    | cons c r =>
      have hc := hplain c (by simp)
      rw [List.cons_append, csvRun_fs_other hc.1 hc.2.1 hc.2.2]
      have hr : ∀ x ∈ r, x ≠ ',' ∧ x ≠ '\n' := fun x hx =>
        ⟨(hplain x (List.mem_cons_of_mem c hx)).1,
         (hplain x (List.mem_cons_of_mem c hx)).2.2⟩
      have h := csvRun_unq_comma hr [c] rest
      simpa using h

theorem csvRun_wf_end {f : Str} (hf : '\n' ∉ f) :
    csvRun (writeField f) CState.fs [] = [f] := by
  rw [writeField]
  by_cases hq : needsQuote f = true
  · rw [if_pos hq, csvRun_fs_quote]
    have h := csvRun_inq_end f []
    simpa using h
  · have hq' : needsQuote f = false := by simpa using hq
    rw [if_neg hq]
    have hplain := needsQuote_false_plain hq'
    cases f with
    | nil => simp [csvRun]
    | cons c r =>
      have hc := hplain c (by simp)
      rw [csvRun_fs_other hc.1 hc.2.1 hc.2.2]
      have hr : ∀ x ∈ r, x ≠ ',' ∧ x ≠ '\n' := fun x hx =>
        ⟨(hplain x (List.mem_cons_of_mem c hx)).1,
         (hplain x (List.mem_cons_of_mem c hx)).2.2⟩
      have h := csvRun_unq_end hr [c]
      simpa using h

theorem csvRun_record : ∀ (fs : List Str), fs ≠ [] → (∀ f ∈ fs, '\n' ∉ f) →
    csvRun (writeRecord fs) CState.fs [] = fs
  | [], h, _ => absurd rfl h
  | [f], _, hnl => by
    rw [writeRecord]
    exact csvRun_wf_end (hnl f (by simp))
  | f :: g :: rest, _, hnl => by
    rw [writeRecord]
    · rw [csvRun_wf_comma (hnl f (by simp))]
      rw [csvRun_record (g :: rest) (List.cons_ne_nil g rest)
        (fun x hx => hnl x (List.mem_cons_of_mem f hx))]
    · intro h
      exact List.noConfusion h

/-! Membership and boundary facts about written records. -/

theorem mem_dqDouble {c : Char} {f : Str} (h : c ∈ dqDouble f) :
    c ∈ f ∨ c = '"' := by
  induction f with
  | nil => simp [dqDouble] at h
  | cons d r ih =>
    rw [dqDouble] at h
    by_cases hd : d = '"'
    · rw [if_pos hd] at h
      simp only [List.mem_cons] at h
      rcases h with h | h | h
      · exact Or.inr h
      · exact Or.inr h
      · rcases ih h with h' | h'
        · exact Or.inl (List.mem_cons_of_mem d h')
        · exact Or.inr h'
    · rw [if_neg hd] at h
      simp only [List.mem_cons] at h
      rcases h with h | h
      · exact Or.inl (by simp [h])
      · rcases ih h with h' | h'
        · exact Or.inl (List.mem_cons_of_mem d h')
        · exact Or.inr h'

theorem mem_writeField {c : Char} {f : Str} (h : c ∈ writeField f) :
    c ∈ f ∨ c = '"' := by
  rw [writeField] at h
  by_cases hq : needsQuote f = true
  · rw [if_pos hq] at h
    simp only [List.mem_cons, List.mem_append, List.mem_singleton] at h
    rcases h with h | h | h
    · exact Or.inr h
    · exact mem_dqDouble h
    · simp at h
      exact Or.inr h
  · rw [if_neg hq] at h
    exact Or.inl h

theorem mem_writeRecord {c : Char} : ∀ {fs : List Str}, c ∈ writeRecord fs →
    (∃ f ∈ fs, c ∈ f) ∨ c = ',' ∨ c = '"'
  | [], h => by simp [writeRecord] at h
  | [f], h => by
    rw [writeRecord] at h
    rcases mem_writeField h with h' | h'
    · exact Or.inl ⟨f, by simp, h'⟩
    · exact Or.inr (Or.inr h')
  | f :: g :: rest, h => by
    have hw : writeRecord (f :: g :: rest) =
        writeField f ++ ',' :: writeRecord (g :: rest) := rfl
    rw [hw] at h
    simp only [List.mem_append, List.mem_cons] at h
    rcases h with h | h | h
    · rcases mem_writeField h with h' | h'
      · exact Or.inl ⟨f, by simp, h'⟩
      · exact Or.inr (Or.inr h')
    · exact Or.inr (Or.inl h)
    · rcases @mem_writeRecord c (g :: rest) h with ⟨f', hmem, hc⟩ | h'
      · exact Or.inl ⟨f', List.mem_cons_of_mem f hmem, hc⟩
      · exact Or.inr h'

theorem record_head_not_ws {f : Str} (hss : pstrip f = f) {R : Str} {c : Char}
    {t : Str} (h : writeField f ++ ',' :: R = c :: t) : pyWs c = false := by
  rw [writeField] at h
  by_cases hq : needsQuote f = true
  · rw [if_pos hq, List.cons_append] at h
    have hc : c = '"' := ((List.cons.inj h).1).symm
    rw [hc]
    decide
  · rw [if_neg hq] at h
    cases f with
    | nil =>
      rw [List.nil_append] at h
      have hc : c = ',' := ((List.cons.inj h).1).symm
      rw [hc]
      decide
    | cons a r =>
      rw [List.cons_append] at h
      have hc : c = a := ((List.cons.inj h).1).symm
      rw [hc]
      exact stable_head hss rfl

theorem wf_last_not_ws {f : Str} (hss : pstrip f = f) {c : Char}
    (h : (writeField f).getLast? = some c) : pyWs c = false := by
  rw [writeField] at h
  by_cases hq : needsQuote f = true
  · rw [if_pos hq] at h
    have hshape : ('"' :: (dqDouble f ++ ['"'])) =
        ('"' :: dqDouble f) ++ ['"'] := by simp
    rw [hshape, List.getLast?_concat] at h
    have hc : c = '"' := (Option.some.inj h).symm
    rw [hc]
    decide
  · rw [if_neg hq] at h
    exact stable_last hss h

theorem record_last_not_ws : ∀ (fs : List Str), (∀ f ∈ fs, pstrip f = f) →
    ∀ (c : Char), (writeRecord fs).getLast? = some c → pyWs c = false
  | [], _, c, h => by simp [writeRecord] at h
  | [f], hss, c, h => by
    rw [writeRecord] at h
    exact wf_last_not_ws (hss f (by simp)) h
  | f :: g :: rest, hss, c, h => by
    have hw : writeRecord (f :: g :: rest) =
        writeField f ++ ',' :: writeRecord (g :: rest) := rfl
    rw [hw, List.getLast?_append_of_ne_nil _ (List.cons_ne_nil _ _)] at h
    cases hR : writeRecord (g :: rest) with
    | nil =>
      rw [hR, List.getLast?_singleton] at h
      have hc : c = ',' := (Option.some.inj h).symm
      rw [hc]
      decide
    | cons d R' =>
      rw [hR] at h
      have hstep : (',' :: d :: R').getLast? = (d :: R').getLast? := by
        rw [show (',' :: d :: R') = [','] ++ (d :: R') from rfl,
          List.getLast?_append_of_ne_nil _ (List.cons_ne_nil _ _)]
      rw [hstep, ← hR] at h
      exact record_last_not_ws (g :: rest)
        (fun x hx => hss x (List.mem_cons_of_mem f hx)) c h

theorem writeRecord_cons_ne_nil (f g : Str) (rest : List Str) :
    writeRecord (f :: g :: rest) ≠ [] := by
  have hw : writeRecord (f :: g :: rest) =
      writeField f ++ ',' :: writeRecord (g :: rest) := rfl
  rw [hw]
  simp

/-- Per-field decoding of an escaped, strip-stable, non-empty value. -/
theorem normCell_encVal {v : Option Str} (hv : goodVal v) :
    normCell (some (encVal v)) = v := by
  rcases v with _ | s
  · rfl
  · obtain ⟨hne, hadj, hss, -⟩ := hv s rfl
    rw [normCell, encVal]
    have hps : pstrip (escNl s) = escNl s := hss
    rw [hps, unescNl_escNl hadj]
    cases s with
    | nil => exact absurd rfl hne
    | cons c t => rfl

theorem encVal_no_nl (v : Option Str) : '\n' ∉ encVal v := by
  rcases v with _ | s
  · simp [encVal]
  · exact escNl_no_nl s

theorem encVal_ss {v : Option Str} (h : goodVal v) :
    pstrip (encVal v) = encVal v := by
  rcases v with _ | s
  · rfl
  · exact (h s rfl).2.2.1

theorem encVal_no_nul {v : Option Str} (h : goodVal v) : '\x00' ∉ encVal v := by
  rcases v with _ | s
  · simp [encVal]
  · intro hin
    rcases mem_escNl hin with h' | h' | h'
    · exact (h s rfl).2.2.2 h'
    · exact absurd h' (by decide)
    · exact absurd h' (by decide)

theorem rowGet_canonical (a1 a2 a3 a4 a5 a6 a7 a8 : Str) :
    rowGet CSV_FIELDS [a1, a2, a3, a4, a5, a6, a7, a8] (strOf "autor") =
        some a1 ∧
      rowGet CSV_FIELDS [a1, a2, a3, a4, a5, a6, a7, a8] (strOf "reu") =
        some a2 ∧
      rowGet CSV_FIELDS [a1, a2, a3, a4, a5, a6, a7, a8]
        (strOf "assunto_principal") = some a3 ∧
      rowGet CSV_FIELDS [a1, a2, a3, a4, a5, a6, a7, a8]
        (strOf "tipo_decisao") = some a4 ∧
      rowGet CSV_FIELDS [a1, a2, a3, a4, a5, a6, a7, a8] (strOf "resultado") =
        some a5 ∧
      rowGet CSV_FIELDS [a1, a2, a3, a4, a5, a6, a7, a8]
        (strOf "resumo_5_linhas") = some a6 ∧
      rowGet CSV_FIELDS [a1, a2, a3, a4, a5, a6, a7, a8]
        (strOf "data_decisao") = some a7 ∧
      rowGet CSV_FIELDS [a1, a2, a3, a4, a5, a6, a7, a8] (strOf "tribunal") =
        some a8 :=
  ⟨rfl, rfl, rfl, rfl, rfl, rfl, rfl, rfl⟩

/-- C1 counterexample: a value with leading whitespace does not survive the
round trip — the writer's final `strip()` eats the space, so parsing returns
the trimmed value. -/
theorem csv_roundtrip_cex :
    parse_csv_output (dict_to_csv_line
      ⟨some (strOf " a"), none, none, none, none, none, none, none⟩) =
      some ⟨some (strOf "a"), none, none, none, none, none, none, none⟩ ∧
    parse_csv_output (dict_to_csv_line
      ⟨some (strOf " a"), none, none, none, none, none, none, none⟩) ≠
      some ⟨some (strOf " a"), none, none, none, none, none, none, none⟩ := by
  constructor
  · decide
  · decide

/-- C1 (amended): encoding a FieldSet with `dict_to_csv_line` and parsing the
result back with the strict parser yields the original FieldSet — including
values containing commas, quotes and embedded newlines (escaped to a literal
backslash-n and restored) — provided every present value is non-empty, holds
no literal backslash-n sequence and no NUL character, and its newline-escaped
form has no leading or trailing whitespace. -/
theorem csv_roundtrip (e : Entities) (hv : ∀ v ∈ e.values, goodVal v) :
    parse_csv_output (dict_to_csv_line e) = some e := by
  obtain ⟨v1, v2, v3, v4, v5, v6, v7, v8⟩ := e
  have g1 : goodVal v1 := hv v1 (by simp [Entities.values])
  have g2 : goodVal v2 := hv v2 (by simp [Entities.values])
  have g3 : goodVal v3 := hv v3 (by simp [Entities.values])
  have g4 : goodVal v4 := hv v4 (by simp [Entities.values])
  have g5 : goodVal v5 := hv v5 (by simp [Entities.values])
  have g6 : goodVal v6 := hv v6 (by simp [Entities.values])
  have g7 : goodVal v7 := hv v7 (by simp [Entities.values])
  have g8 : goodVal v8 := hv v8 (by simp [Entities.values])
  set fields : List Str := [encVal v1, encVal v2, encVal v3, encVal v4,
    encVal v5, encVal v6, encVal v7, encVal v8] with hfields
  have hf_nl : ∀ f ∈ fields, '\n' ∉ f := by
    intro f hf
    rw [hfields] at hf
    simp only [List.mem_cons, List.not_mem_nil, or_false] at hf
    rcases hf with rfl | rfl | rfl | rfl | rfl | rfl | rfl | rfl <;>
      exact encVal_no_nl _
  have hf_ss : ∀ f ∈ fields, pstrip f = f := by
    intro f hf
    rw [hfields] at hf
    simp only [List.mem_cons, List.not_mem_nil, or_false] at hf
    rcases hf with rfl | rfl | rfl | rfl | rfl | rfl | rfl | rfl
    · exact encVal_ss g1
    · exact encVal_ss g2
    · exact encVal_ss g3
    · exact encVal_ss g4
    · exact encVal_ss g5
    · exact encVal_ss g6
    · exact encVal_ss g7
    · exact encVal_ss g8
  have hf_nul : ∀ f ∈ fields, '\x00' ∉ f := by
    intro f hf
    rw [hfields] at hf
    simp only [List.mem_cons, List.not_mem_nil, or_false] at hf
    rcases hf with rfl | rfl | rfl | rfl | rfl | rfl | rfl | rfl
    · exact encVal_no_nul g1
    · exact encVal_no_nul g2
    · exact encVal_no_nul g3
    · exact encVal_no_nul g4
    · exact encVal_no_nul g5
    · exact encVal_no_nul g6
    · exact encVal_no_nul g7
    · exact encVal_no_nul g8
  set record : Str := writeRecord fields with hrecord
  have hne : record ≠ [] := by
    rw [hrecord, hfields]
    exact writeRecord_cons_ne_nil _ _ _
  have hrec_nl : '\n' ∉ record := by
    intro h
    rw [hrecord] at h
    rcases mem_writeRecord h with ⟨f, hf, hc⟩ | h' | h'
    · exact hf_nl f hf hc
    · exact absurd h' (by decide)
    · exact absurd h' (by decide)
  have hrec_nul : '\x00' ∉ record := by
    intro h
    rw [hrecord] at h
    rcases mem_writeRecord h with ⟨f, hf, hc⟩ | h' | h'
    · exact hf_nul f hf hc
    · exact absurd h' (by decide)
    · exact absurd h' (by decide)
  have hdw : List.dropWhile pyWs record = record := by
    cases hrec : record with
    | nil => rfl
    | cons c t =>
      have hshape : writeField (encVal v1) ++ ',' ::
          writeRecord [encVal v2, encVal v3, encVal v4, encVal v5, encVal v6,
            encVal v7, encVal v8] = c :: t := by
        rw [← hrec, hrecord, hfields]
        rfl
      have hc := record_head_not_ws (encVal_ss g1) hshape
      rw [List.dropWhile_cons, if_neg (by rw [hc]; simp)]
  have hrdw : List.rdropWhile pyWs record = record := by
    rw [List.rdropWhile_eq_self_iff]
    intro hne'
    have h := record_last_not_ws fields hf_ss (record.getLast hne')
      (by rw [← hrecord]; exact List.getLast?_eq_getLast_of_ne_nil hne')
    rw [h]
    simp
  have hps : pstrip record = record := pstrip_self_of record hdw hrdw
  have hraw : dict_to_csv_line ⟨v1, v2, v3, v4, v5, v6, v7, v8⟩ = record := by
    rw [dict_to_csv_line]
    have hmap : (Entities.mk v1 v2 v3 v4 v5 v6 v7 v8).values.map encVal =
        fields := by rw [hfields]; rfl
    rw [hmap, ← hrecord, pstrip_drop_crlf record hdw, hrdw]
  have hie : record.isEmpty = false := by
    rw [Bool.eq_false_iff]
    intro h
    exact hne (List.isEmpty_iff.mp h)
  have hsr : splitRecord record = fields := by
    rw [splitRecord, if_neg (by rw [hie]; simp), hrecord]
    exact csvRun_record fields (by rw [hfields]; simp) hf_nl
  have hhdr : splitRecord (List.intercalate [','] CSV_FIELDS) = CSV_FIELDS :=
    by decide
  have hdc : record.contains '\x00' = false := by
    rw [Bool.eq_false_iff]
    intro hc
    exact hrec_nul (List.elem_iff.mp hc)
  rw [hraw, parse_csv_output]
  rw [if_neg (by rw [hie]; simp)]
  simp only [replCrlf_id hrec_nl, hps, splitNl_no_nl hrec_nl, List.filter_cons,
    List.filter_nil, hie, Bool.not_false, if_true]
  rw [readHeaderData]
  rw [if_neg (by rw [hdc]; decide)]
  rw [hhdr, if_neg (by decide), hsr, hfields]
  have hrg := rowGet_canonical (encVal v1) (encVal v2) (encVal v3) (encVal v4)
    (encVal v5) (encVal v6) (encVal v7) (encVal v8)
  simp only []
  rw [hrg.1, hrg.2.1, hrg.2.2.1, hrg.2.2.2.1, hrg.2.2.2.2.1, hrg.2.2.2.2.2.1,
    hrg.2.2.2.2.2.2.1, hrg.2.2.2.2.2.2.2]
  rw [normCell_encVal g1, normCell_encVal g2, normCell_encVal g3,
    normCell_encVal g4, normCell_encVal g5, normCell_encVal g6,
    normCell_encVal g7, normCell_encVal g8]

/-- C1 witness: the round trip at a mapping exercising commas, quotes and an
embedded newline. -/
theorem csv_roundtrip_witness :
    parse_csv_output (dict_to_csv_line
      ⟨some (strOf "Doe, John"), some (strOf "ACME \"Corp\""), none, none,
       none, some (strOf "line one\nline two"), some (strOf "15/03/2020"),
       none⟩) =
      some ⟨some (strOf "Doe, John"), some (strOf "ACME \"Corp\""), none, none,
       none, some (strOf "line one\nline two"), some (strOf "15/03/2020"),
       none⟩ := by
  apply csv_roundtrip
  intro v hv
  simp only [Entities.values, List.mem_cons, List.not_mem_nil, or_false] at hv
  rcases hv with rfl | rfl | rfl | rfl | rfl | rfl | rfl | rfl <;>
    intro s hs <;>
    first
      | exact Option.noConfusion hs
      | (injection hs with h2; subst h2;
         exact ⟨by decide, by decide, by decide, by decide⟩)

/-! Stability lemmas for the second `validate` pass (C6). -/

theorem pySplitWsGo_nonws :
    ∀ (p : Str), (∀ c ∈ p, pyWs c = false) → ∀ (rest acc : Str),
      pySplitWsGo (p ++ rest) acc = pySplitWsGo rest (p.reverse ++ acc) := by
  intro p
  induction p with
  | nil => intro _ rest acc; simp
  | cons c q ih =>
    intro h rest acc
    have hc : pyWs c = false := h c (List.mem_cons_self ..)
    have hq : ∀ d ∈ q, pyWs d = false := fun d hd =>
      h d (List.mem_cons_of_mem _ hd)
    simp only [List.cons_append, pySplitWsGo, hc, Bool.false_eq_true, if_false]
    rw [show q.append rest = q ++ rest from rfl, ih hq rest (c :: acc),
      List.reverse_cons, List.append_assoc]
    rfl

theorem pySplitWs_sound :
    ∀ (s : Str) (acc : Str), (∀ c ∈ acc, pyWs c = false) →
      ∀ p ∈ pySplitWsGo s acc, p ≠ [] ∧ ∀ c ∈ p, pyWs c = false := by
  intro s
  induction s with
  | nil =>
    intro acc hacc p hp
    simp only [pySplitWsGo] at hp
    by_cases he : acc.isEmpty = true
    · rw [if_pos he] at hp
      simp at hp
    · rw [if_neg he] at hp
      simp only [List.mem_singleton] at hp
      subst hp
      refine ⟨?_, fun c hc => hacc c (List.mem_reverse.mp hc)⟩
      intro h0
      exact he (by simp [List.isEmpty_iff, List.reverse_eq_nil_iff.mp h0])
  | cons c r ih =>
    intro acc hacc p hp
    simp only [pySplitWsGo] at hp
    by_cases hw : pyWs c = true
    · rw [if_pos hw] at hp
      by_cases he : acc.isEmpty = true
      · rw [if_pos he] at hp
        exact ih [] (by simp) p hp
      · rw [if_neg he] at hp
        rcases List.mem_cons.mp hp with rfl | hp'
        · refine ⟨?_, fun d hd => hacc d (List.mem_reverse.mp hd)⟩
          intro h0
          exact he (by simp [List.isEmpty_iff, List.reverse_eq_nil_iff.mp h0])
        · exact ih [] (by simp) p hp'
    · rw [if_neg hw] at hp
      refine ih (c :: acc) ?_ p hp
      intro d hd
      rcases List.mem_cons.mp hd with rfl | hd'
      · exact Bool.eq_false_iff.mpr hw
      · exact hacc d hd'

theorem intercalate_cons2 (s p q : Str) (rest : List Str) :
    List.intercalate s (p :: q :: rest) =
      p ++ s ++ List.intercalate s (q :: rest) := by
  simp [List.intercalate, List.intersperse]

theorem intercalate_single (s p : Str) : List.intercalate s [p] = p := by
  simp [List.intercalate, List.intersperse]

theorem pySplitWs_intercalate :
    ∀ (ps : List Str), ps ≠ [] →
      (∀ p ∈ ps, p ≠ [] ∧ ∀ c ∈ p, pyWs c = false) →
      pySplitWs (List.intercalate [' '] ps) = ps := by
  intro ps
  induction ps with
  | nil => intro h; cases h rfl
  | cons p rest ih =>
    intro _ hps
    obtain ⟨hpne, hpws⟩ := hps p (List.mem_cons_self ..)
    cases rest with
    | nil =>
      rw [intercalate_single, pySplitWs]
      have h1 := pySplitWsGo_nonws p hpws [] []
      rw [List.append_nil] at h1
      rw [h1]
      simp only [pySplitWsGo, List.append_nil]
      rw [if_neg (by simp [List.isEmpty_iff, hpne]), List.reverse_reverse]
    | cons q rest' =>
      rw [intercalate_cons2, pySplitWs, List.append_assoc]
      have h1 := pySplitWsGo_nonws p hpws
        ([' '] ++ List.intercalate [' '] (q :: rest')) []
      rw [h1]
      show pySplitWsGo (' ' :: List.intercalate [' '] (q :: rest'))
        (p.reverse ++ []) = p :: q :: rest'
      simp only [pySplitWsGo]
      rw [if_pos (by decide)]
      rw [if_neg (by simp [List.isEmpty_iff, hpne])]
      simp only [List.append_nil, List.reverse_reverse]
      have h2 := ih (by simp) (fun r hr => hps r (List.mem_cons_of_mem _ hr))
      rw [pySplitWs] at h2
      rw [h2]

theorem wsCollapse_pieces (s : Str) :
    ∀ p ∈ pySplitWs s, p ≠ [] ∧ ∀ c ∈ p, pyWs c = false :=
  fun p hp => pySplitWs_sound s [] (by simp) p hp

theorem wsCollapse_idem (s : Str) : wsCollapse (wsCollapse s) = wsCollapse s := by
  simp only [wsCollapse]
  by_cases h : pySplitWs s = []
  · rw [h]
    decide
  · rw [pySplitWs_intercalate (pySplitWs s) h (wsCollapse_pieces s)]

theorem dropWhile_head_false {p : Char → Bool} :
    ∀ {l : Str} {c : Char} {t : Str}, List.dropWhile p l = c :: t →
      p c = false := by
  intro l
  induction l with
  | nil => intro c t h; simp at h
  | cons a r ih =>
    intro c t h
    rw [List.dropWhile_cons] at h
    split_ifs at h with hp
    · exact ih h
    · injection h with h1 _
      subst h1
      exact Bool.eq_false_iff.mpr hp

theorem pstrip_head_false {s : Str} {c : Char} {t : Str}
    (h : pstrip s = c :: t) : pyWs c = false := by
  rw [pstrip_eq] at h
  obtain ⟨u, hu⟩ := List.rdropWhile_prefix pyWs (List.dropWhile pyWs s)
  rw [h] at hu
  exact dropWhile_head_false hu.symm

theorem pstrip_last_false {s : Str} {c : Char}
    (h : (pstrip s).getLast? = some c) : pyWs c = false := by
  rw [pstrip_eq, List.rdropWhile, List.getLast?_reverse] at h
  cases hd : List.dropWhile pyWs (List.dropWhile pyWs s).reverse with
  | nil => rw [hd] at h; simp at h
  | cons a t =>
    rw [hd] at h
    simp only [List.head?_cons] at h
    injection h with h1
    subst h1
    exact dropWhile_head_false hd

theorem pstrip_idem (s : Str) : pstrip (pstrip s) = pstrip s :=
  pstrip_self_head_last _ (fun _ _ h => pstrip_head_false h)
    (fun _ h => pstrip_last_false h)

theorem mem_pstrip {c : Char} {s : Str} (h : c ∈ pstrip s) : c ∈ s := by
  rw [pstrip_eq] at h
  exact (List.dropWhile_suffix pyWs).sublist.subset
    ((List.rdropWhile_prefix pyWs _).sublist.subset h)

theorem splitNl_ne_nil (s : Str) : splitNl s ≠ [] := by
  induction s with
  | nil => simp [splitNl]
  | cons c r ih =>
    rw [splitNl_cons]
    split_ifs <;> simp

theorem mem_splitNl_no_nl {s : Str} : ∀ p ∈ splitNl s, '\n' ∉ p := by
  induction s with
  | nil =>
    intro p hp
    simp only [splitNl, List.foldr_nil, List.mem_singleton] at hp
    subst hp
    simp
  | cons c r ih =>
    intro p hp
    rw [splitNl_cons] at hp
    by_cases hc : c = '\n'
    · rw [if_pos hc] at hp
      rcases List.mem_cons.mp hp with rfl | hp'
      · simp
      · exact ih p hp'
    · rw [if_neg hc] at hp
      rcases List.mem_cons.mp hp with rfl | hp'
      · intro hmem
        rcases List.mem_cons.mp hmem with h1 | h1
        · exact hc h1.symm
        · cases hsp : splitNl r with
          | nil => rw [hsp] at h1; simp at h1
          | cons h0 t0 =>
            rw [hsp] at h1
            simp only [List.headD_cons] at h1
            exact ih h0 (hsp ▸ List.mem_cons_self ..) h1
      · exact ih p (List.mem_of_mem_drop hp')

theorem splitNl_append_nl :
    ∀ (p : Str), '\n' ∉ p → ∀ (t : Str),
      splitNl (p ++ '\n' :: t) = p :: splitNl t := by
  intro p
  induction p with
  | nil => intro _ t; rw [List.nil_append, splitNl_cons, if_pos rfl]
  | cons c q ih =>
    intro hp t
    have hc : ¬ c = '\n' := fun h => hp (h ▸ List.mem_cons_self ..)
    have hq : '\n' ∉ q := fun h => hp (List.mem_cons_of_mem _ h)
    rw [List.cons_append, splitNl_cons, if_neg hc, ih hq]
    simp

theorem splitNl_intercalate :
    ∀ (ps : List Str), ps ≠ [] → (∀ p ∈ ps, '\n' ∉ p) →
      splitNl (List.intercalate ['\n'] ps) = ps := by
  intro ps
  induction ps with
  | nil => intro h; cases h rfl
  | cons p rest ih =>
    intro _ hps
    cases rest with
    | nil => rw [intercalate_single]; exact splitNl_no_nl (hps p (by simp))
    | cons q rest' =>
      rw [intercalate_cons2, List.append_assoc]
      rw [show ['\n'] ++ List.intercalate ['\n'] (q :: rest') =
        '\n' :: List.intercalate ['\n'] (q :: rest') from rfl]
      rw [splitNl_append_nl p (hps p (by simp))]
      rw [ih (by simp) (fun r hr => hps r (List.mem_cons_of_mem _ hr))]

theorem summaryLines_intercalate (ps : List Str) (hne : ps ≠ [])
    (hp : ∀ p ∈ ps, p ≠ [] ∧ pstrip p = p ∧ '\n' ∉ p) :
    summaryLines (List.intercalate ['\n'] ps) = ps := by
  rw [summaryLines, splitNl_intercalate ps hne (fun p h => (hp p h).2.2)]
  have h1 : ps.map pstrip = ps := by
    conv_rhs => rw [← List.map_id ps]
    exact List.map_congr_left (fun a ha => (hp a ha).2.1)
  rw [h1, List.filter_eq_self.mpr]
  intro a ha
  simp [List.isEmpty_iff, (hp a ha).1]

theorem mem_intercalate_nl {ps : List Str} (h : 2 ≤ ps.length) :
    '\n' ∈ List.intercalate ['\n'] ps := by
  match ps, h with
  | p :: q :: rest, _ =>
    rw [intercalate_cons2]
    simp

theorem nullLike_of_mem_nl {t : Str} (h : '\n' ∈ t) :
    nullLike (some t) = false := by
  have hne : t ≠ [] := List.ne_nil_of_mem h
  have hmap : '\n' ∈ pyLower t := by
    rw [pyLower]
    exact List.mem_map.mpr ⟨'\n', h, by decide⟩
  have k1 : pyLower t ≠ strOf "null" := fun he => by
    rw [he] at hmap; exact absurd hmap (by decide)
  have k2 : pyLower t ≠ strOf "none" := fun he => by
    rw [he] at hmap; exact absurd hmap (by decide)
  have k3 : pyLower t ≠ strOf "n/a" := fun he => by
    rw [he] at hmap; exact absurd hmap (by decide)
  simp [nullLike, pyTruthy, List.isEmpty_iff, hne, k1, k2, k3]

theorem party_stable {v w : Option Str} {er : Str}
    (h : validate_party_name v = ⟨true, w, er⟩)
    (hst : ∀ s, w = some s → nullLike (some s) = false) :
    validate_party_name w = ⟨true, w, []⟩ := by
  simp only [validate_party_name] at h
  split_ifs at h with h0 h1 h2
  · injection h with _ hw _
    subst hw
    rfl
  · injection h with hb
    exact absurd hb (by decide)
  · injection h with hb
    exact absurd hb (by decide)
  · injection h with _ hw _
    subst hw
    have hn := hst _ rfl
    simp only [validate_party_name, hn, Bool.false_eq_true, if_false,
      Option.getD_some, wsCollapse_idem]
    rw [if_neg h1, if_neg h2]

theorem subject_stable {v w : Option Str} {er : Str}
    (h : validate_subject v = ⟨true, w, er⟩)
    (hst : ∀ s, w = some s → nullLike (some s) = false) :
    validate_subject w = ⟨true, w, []⟩ := by
  simp only [validate_subject] at h
  split_ifs at h with h0 h1
  · injection h with _ hw _
    subst hw
    rfl
  · injection h with hb
    exact absurd hb (by decide)
  · injection h with _ hw _
    subst hw
    have hn := hst _ rfl
    simp only [validate_subject, hn, Bool.false_eq_true, if_false,
      Option.getD_some, wsCollapse_idem]
    rw [if_neg h1]

theorem court_stable {v w : Option Str} {er : Str}
    (h : validate_court v = ⟨true, w, er⟩)
    (hst : ∀ s, w = some s → nullLike (some s) = false) :
    validate_court w = ⟨true, w, []⟩ := by
  simp only [validate_court] at h
  split_ifs at h with h0 h1
  · injection h with _ hw _
    subst hw
    rfl
  · injection h with hb
    exact absurd hb (by decide)
  · injection h with _ hw _
    subst hw
    have hn := hst _ rfl
    simp only [validate_court, hn, Bool.false_eq_true, if_false,
      Option.getD_some, wsCollapse_idem]
    rw [if_neg h1]

theorem decision_stable {v w : Option Str} {er : Str}
    (h : validate_decision_type v = ⟨true, w, er⟩) :
    validate_decision_type w = ⟨true, w, []⟩ := by
  simp only [validate_decision_type] at h
  split_ifs at h with h0
  · injection h with _ hw _
    subst hw
    rfl
  · injection h with _ hw _
    subst hw
    cases v with
    | none => exact absurd (by decide : nullLike none = true) h0
    | some s =>
      simp only [validate_decision_type, Option.getD_some]
      rw [if_neg h0]

theorem result_stable {v w : Option Str} {er : Str}
    (h : validate_result v = ⟨true, w, er⟩) :
    validate_result w = ⟨true, w, []⟩ := by
  simp only [validate_result] at h
  split_ifs at h with h0 h1
  · injection h with _ hw _
    subst hw
    rfl
  · injection h with _ hw _
    subst hw
    cases v with
    | none => exact absurd (by decide : nullLike none = true) h0
    | some s =>
      simp only [Option.getD_some] at h1
      simp only [validate_result, Option.getD_some]
      rw [if_neg h0, if_pos h1]
  · injection h with hb
    exact absurd hb (by decide)

theorem summaryLines_pieces (s : Str) :
    ∀ p ∈ summaryLines s, p ≠ [] ∧ pstrip p = p ∧ '\n' ∉ p := by
  intro p hp
  rw [summaryLines] at hp
  obtain ⟨hp1, hp2⟩ := List.mem_filter.mp hp
  obtain ⟨q, hq, rfl⟩ := List.mem_map.mp hp1
  refine ⟨?_, pstrip_idem q, fun hm => mem_splitNl_no_nl q hq (mem_pstrip hm)⟩
  intro h0
  rw [h0] at hp2
  simp at hp2

theorem summary_trunc_stable {s : Str}
    (hgt : (summaryLines s).length > MAX_SUMMARY_LINES) :
    validate_summary (some (List.intercalate ['\n']
      ((summaryLines s).take MAX_SUMMARY_LINES))) =
    ⟨true, some (List.intercalate ['\n']
      ((summaryLines s).take MAX_SUMMARY_LINES)), []⟩ := by
  set ps := (summaryLines s).take MAX_SUMMARY_LINES with hps
  have hlen : ps.length = 5 := by
    rw [hps, List.length_take]
    simp only [MAX_SUMMARY_LINES] at hgt ⊢
    omega
  have hpieces : ∀ p ∈ ps, p ≠ [] ∧ pstrip p = p ∧ '\n' ∉ p := by
    intro p hp
    rw [hps] at hp
    exact summaryLines_pieces s p (List.mem_of_mem_take hp)
  have hne : ps ≠ [] := by
    intro h0
    rw [h0] at hlen
    simp at hlen
  have hnl : '\n' ∈ List.intercalate ['\n'] ps :=
    mem_intercalate_nl (by omega)
  have h0 := nullLike_of_mem_nl hnl
  have hlines := summaryLines_intercalate ps hne hpieces
  simp only [validate_summary, h0, Bool.false_eq_true, if_false,
    Option.getD_some, hlines]
  rw [if_neg (by rw [hlen]; decide), if_neg (by rw [hlen]; decide)]

theorem summary_stable {v w : Option Str} {er : Str}
    (h : validate_summary v = ⟨true, w, er⟩) :
    validate_summary w = ⟨true, w, []⟩ := by
  simp only [validate_summary] at h
  split_ifs at h with h0 h1 h2
  · injection h with hb
    exact absurd hb (by decide)
  · injection h with hb
    exact absurd hb (by decide)
  · injection h with _ hw _
    subst hw
    cases v with
    | none => exact absurd (by decide : nullLike none = true) h0
    | some s =>
      simp only [Option.getD_some] at h2 ⊢
      exact summary_trunc_stable h2
  · injection h with _ hw _
    subst hw
    cases v with
    | none => exact absurd (by decide : nullLike none = true) h0
    | some s =>
      simp only [Option.getD_some] at h1 h2
      simp only [validate_summary, Option.getD_some]
      rw [if_neg h0, if_neg h1, if_neg h2]

theorem opt_some_orElse {α : Type} (a : α) (f : Unit → Option α) :
    (some a).orElse f = some a := rfl

theorem opt_none_orElse {α : Type} (f : Unit → Option α) :
    (none : Option α).orElse f = f () := rfl

theorem digit_bounds {x : Char} (h : pyIsDigit x = true) :
    48 ≤ x.toNat ∧ x.toNat ≤ 57 := by
  simp only [pyIsDigit, Bool.and_eq_true, decide_eq_true_eq] at h
  obtain ⟨h1, h2⟩ := h
  rw [Char.le_def] at h1 h2
  exact ⟨h1, h2⟩

theorem digitVal_lt {x : Char} (h : pyIsDigit x = true) : digitVal x < 10 := by
  obtain ⟨h1, h2⟩ := digit_bounds h
  simp only [digitVal, Char.toNat] at *
  omega

theorem digitChar_digitVal {x : Char} (h : pyIsDigit x = true) :
    digitChar (digitVal x) = x := by
  obtain ⟨h1, h2⟩ := digit_bounds h
  simp only [digitChar, digitVal]
  rw [show 48 + (x.toNat - 48) = x.toNat by omega, Char.ofNat_toNat]

theorem digitChar_facts (a : Nat) (ha : a < 10) :
    pyIsDigit (digitChar a) = true ∧ pyWs (digitChar a) = false ∧
      digitChar a ≠ '/' ∧ digitChar a ≠ '-' ∧ digitChar a ≠ '.' ∧
      Char.toLower (digitChar a) = digitChar a := by
  interval_cases a <;> exact ⟨by decide, by decide, by decide, by decide,
    by decide, by decide⟩

theorem digitVal_digitChar (a : Nat) (ha : a < 10) :
    digitVal (digitChar a) = a := by
  interval_cases a <;> decide

theorem firstMonth_digitChar (a : Nat) (ha : a < 10) (r : Str) :
    firstMonth (digitChar a :: r) = none := by
  interval_cases a <;> rfl

theorem parse_fmt1_success (a b c e f g h i : Nat)
    (ha : a < 10) (hb : b < 10) (hc : c < 10) (he : e < 10)
    (hf : f < 10) (hg : g < 10) (hh : h < 10) (hi : i < 10)
    (hd1 : 1 ≤ 10 * a + b) (hd2 : 10 * a + b ≤ 31)
    (hm1 : 1 ≤ 10 * c + e) (hm2 : 10 * c + e ≤ 12) :
    parseToks [.D, .lit '/', .M, .lit '/', .Y]
      [digitChar a, digitChar b, '/', digitChar c, digitChar e, '/',
       digitChar f, digitChar g, digitChar h, digitChar i] 0 0 0 =
      some (1000 * f + 100 * g + 10 * h + i, 10 * c + e, 10 * a + b) := by
  have fa := (digitChar_facts a ha).1
  have fb := (digitChar_facts b hb).1
  have fc := (digitChar_facts c hc).1
  have fe := (digitChar_facts e he).1
  have ff := (digitChar_facts f hf).1
  have fg := (digitChar_facts g hg).1
  have fh := (digitChar_facts h hh).1
  have fi := (digitChar_facts i hi).1
  have va := digitVal_digitChar a ha
  have vb := digitVal_digitChar b hb
  have vc := digitVal_digitChar c hc
  have ve := digitVal_digitChar e he
  have vf := digitVal_digitChar f hf
  have vg := digitVal_digitChar g hg
  have vh := digitVal_digitChar h hh
  have vi := digitVal_digitChar i hi
  simp only [parseToks, fa, fb, fc, fe, ff, fg, fh, fi, va, vb, vc, ve, vf,
    vg, vh, vi, Bool.and_self, Bool.true_and, Bool.and_true,
    decide_eq_true hd1, decide_eq_true hd2, decide_eq_true hm1,
    decide_eq_true hm2, if_true, opt_some_orElse]

theorem parse_fmt1_fail_d {a b : Nat} (ha : a < 10) (hb : b < 10) (u : Str)
    (hd : ¬(1 ≤ 10 * a + b ∧ 10 * a + b ≤ 31)) :
    parseToks [.D, .lit '/', .M, .lit '/', .Y]
      (digitChar a :: digitChar b :: u) 0 0 0 = none := by
  have fa := (digitChar_facts a ha).1
  have fb := (digitChar_facts b hb).1
  have va := digitVal_digitChar a ha
  have vb := digitVal_digitChar b hb
  have nb := (digitChar_facts b hb).2.2.1
  have hcond : (decide (1 ≤ 10 * a + b) && decide (10 * a + b ≤ 31)) =
      false := by
    rw [Bool.eq_false_iff]
    intro hx
    rw [Bool.and_eq_true, decide_eq_true_eq, decide_eq_true_eq] at hx
    exact hd hx
  simp only [parseToks, fa, fb, va, vb, nb, Bool.and_self, Bool.true_and,
    hcond, Bool.false_eq_true, if_false, opt_none_orElse, ite_self]

theorem parse_fmt1_fail_m {a b c e : Nat} (ha : a < 10) (hb : b < 10)
    (hc : c < 10) (he : e < 10) (u : Str)
    (hd : 1 ≤ 10 * a + b ∧ 10 * a + b ≤ 31)
    (hm : ¬(1 ≤ 10 * c + e ∧ 10 * c + e ≤ 12)) :
    parseToks [.D, .lit '/', .M, .lit '/', .Y]
      (digitChar a :: digitChar b :: '/' :: digitChar c :: digitChar e :: u)
      0 0 0 = none := by
  have fa := (digitChar_facts a ha).1
  have fb := (digitChar_facts b hb).1
  have fc := (digitChar_facts c hc).1
  have fe := (digitChar_facts e he).1
  have va := digitVal_digitChar a ha
  have vb := digitVal_digitChar b hb
  have vc := digitVal_digitChar c hc
  have ve := digitVal_digitChar e he
  have nb := (digitChar_facts b hb).2.2.1
  have ne' := (digitChar_facts e he).2.2.1
  have hcond : (decide (1 ≤ 10 * c + e) && decide (10 * c + e ≤ 12)) =
      false := by
    rw [Bool.eq_false_iff]
    intro hx
    rw [Bool.and_eq_true, decide_eq_true_eq, decide_eq_true_eq] at hx
    exact hm hx
  simp only [parseToks, fa, fb, fc, fe, va, vb, vc, ve, nb, ne',
    Bool.and_self, Bool.true_and, decide_eq_true hd.1, decide_eq_true hd.2,
    hcond, Bool.false_eq_true, if_true, if_false, opt_none_orElse, ite_self]

theorem parse_fmt2_none {a b : Nat} (ha : a < 10) (hb : b < 10) (u : Str) :
    parseToks [.D, .lit '-', .M, .lit '-', .Y]
      (digitChar a :: digitChar b :: '/' :: u) 0 0 0 = none := by
  have fa := (digitChar_facts a ha).1
  have fb := (digitChar_facts b hb).1
  have nb := (digitChar_facts b hb).2.2.2.1
  have ns : ¬(('/' : Char) = '-') := by decide
  simp only [parseToks, fa, fb, nb, ns, Bool.and_self, Bool.true_and,
    if_false, opt_none_orElse, ite_self]

theorem parse_fmt3_none {a b c : Nat} (ha : a < 10) (hb : b < 10)
    (hc : c < 10) (u : Str) :
    parseToks [.Y, .lit '-', .M, .lit '-', .D]
      (digitChar a :: digitChar b :: '/' :: digitChar c :: u) 0 0 0 =
      none := by
  have fa := (digitChar_facts a ha).1
  have fb := (digitChar_facts b hb).1
  have fc := (digitChar_facts c hc).1
  have ns : pyIsDigit '/' = false := by decide
  simp only [parseToks, fa, fb, fc, ns, Bool.true_and, Bool.and_true,
    Bool.and_false, Bool.false_and, Bool.false_eq_true, if_false]

theorem parse_fmt4_none {a b : Nat} (ha : a < 10) (hb : b < 10) (u : Str) :
    parseToks [.D, .lit '.', .M, .lit '.', .Y]
      (digitChar a :: digitChar b :: '/' :: u) 0 0 0 = none := by
  have fa := (digitChar_facts a ha).1
  have fb := (digitChar_facts b hb).1
  have nb := (digitChar_facts b hb).2.2.2.2.1
  have ns : ¬(('/' : Char) = '.') := by decide
  simp only [parseToks, fa, fb, nb, ns, Bool.and_self, Bool.true_and,
    if_false, opt_none_orElse, ite_self]

theorem parse_fmt5_none {a b : Nat} (ha : a < 10) (hb : b < 10) (u : Str) :
    parseToks [.D, .ws, .B, .ws, .Y]
      (digitChar a :: digitChar b :: '/' :: u) 0 0 0 = none := by
  have fa := (digitChar_facts a ha).1
  have fb := (digitChar_facts b hb).1
  have wb := (digitChar_facts b hb).2.1
  have ws : pyWs '/' = false := by decide
  simp only [parseToks, fa, fb, wb, ws, Bool.and_self, Bool.true_and,
    Bool.false_eq_true, if_false, opt_none_orElse, ite_self]

theorem parse_fmt6_none {a : Nat} (ha : a < 10) (r : Str) :
    parseToks [.B, .ws, .D, .lit ',', .ws, .Y] (digitChar a :: r) 0 0 0 =
      none := by
  have la := (digitChar_facts a ha).2.2.2.2.2
  have hfm := firstMonth_digitChar a ha (List.map Char.toLower r)
  simp only [parseToks, pyLower, List.map_cons, la, hfm]

theorem strptime1_none {fmt : List FmtTok} {s : Str}
    (h : parseToks fmt s 0 0 0 = none) : strptime1 fmt s = none := by
  simp only [strptime1, h]

theorem strptime1_valid {fmt : List FmtTok} {s : Str} {y m d : Nat}
    (h : strptime1 fmt s = some (y, m, d)) : validYMD y m d = true := by
  rw [strptime1] at h
  cases hp : parseToks fmt s 0 0 0 with
  | none => rw [hp] at h; exact Option.noConfusion h
  | some p =>
    obtain ⟨y', m', d'⟩ := p
    rw [hp] at h
    have h' : (if validYMD y' m' d' = true then some (y', m', d')
        else none) = some (y, m, d) := h
    split_ifs at h' with hv
    · injection h' with h2
      injection h2 with hy h23
      injection h23 with hm hd
      subst hy
      subst hm
      subst hd
      exact hv

theorem foldr_strptime_some :
    ∀ (fmts : List (List FmtTok)) (s : Str) (p : Nat × Nat × Nat),
      fmts.foldr (fun fmt acc => (strptime1 fmt s).orElse fun _ => acc)
        none = some p →
      ∃ fmt ∈ fmts, strptime1 fmt s = some p := by
  intro fmts s p
  induction fmts with
  | nil => intro h; exact Option.noConfusion h
  | cons fh ft ih =>
    intro h
    rw [List.foldr_cons] at h
    cases hs : strptime1 fh s with
    | some w =>
      rw [hs, opt_some_orElse] at h
      injection h with h2
      subst h2
      exact ⟨fh, List.mem_cons_self .., hs⟩
    | none =>
      rw [hs, opt_none_orElse] at h
      obtain ⟨fmt, hm, he⟩ := ih h
      exact ⟨fmt, List.mem_cons_of_mem _ hm, he⟩

theorem strptimeFirst_valid {s : Str} {y m d : Nat}
    (h : strptimeFirst s = some (y, m, d)) : validYMD y m d = true := by
  rw [strptimeFirst] at h
  obtain ⟨fmt, _, he⟩ := foldr_strptime_some _ _ _ h
  exact strptime1_valid he

theorem validYMD_bounds {y m d : Nat} (h : validYMD y m d = true) :
    1 ≤ y ∧ y ≤ 9999 ∧ 1 ≤ m ∧ m ≤ 12 ∧ 1 ≤ d ∧ d ≤ 31 := by
  simp only [validYMD, Bool.and_eq_true, decide_eq_true_eq] at h
  obtain ⟨⟨⟨⟨⟨h1, h2⟩, h3⟩, h4⟩, h5⟩, h6⟩ := h
  have hdm : daysInMonth y m ≤ 31 := by
    rw [daysInMonth]
    split_ifs <;> omega
  exact ⟨h1, h2, h3, h4, h5, le_trans h6 hdm⟩

theorem nullLike_of_length {t : Str} (hne : t ≠ []) (h3 : t.length ≠ 3)
    (h4 : t.length ≠ 4) : nullLike (some t) = false := by
  have hlen : (pyLower t).length = t.length := by
    rw [pyLower, List.length_map]
  have k1 : pyLower t ≠ strOf "null" := fun he => h4 (by
    have := congrArg List.length he
    rw [hlen] at this
    simpa using this)
  have k2 : pyLower t ≠ strOf "none" := fun he => h4 (by
    have := congrArg List.length he
    rw [hlen] at this
    simpa using this)
  have k3 : pyLower t ≠ strOf "n/a" := fun he => h3 (by
    have := congrArg List.length he
    rw [hlen] at this
    simpa using this)
  simp [nullLike, pyTruthy, List.isEmpty_iff, hne, k1, k2, k3]

theorem searchTriplet_shape_some (a b c e f g h i : Nat)
    (ha : a < 10) (hb : b < 10) (hc : c < 10) (he : e < 10)
    (hf : f < 10) (hg : g < 10) (hh : h < 10) (hi : i < 10) :
    searchTriplet
      [digitChar a, digitChar b, '/', digitChar c, digitChar e, '/',
       digitChar f, digitChar g, digitChar h, digitChar i] =
      some ([digitChar a, digitChar b], [digitChar c, digitChar e],
        [digitChar f, digitChar g, digitChar h, digitChar i]) := by
  have fa := (digitChar_facts a ha).1
  have fb := (digitChar_facts b hb).1
  have fc := (digitChar_facts c hc).1
  have fe := (digitChar_facts e he).1
  have ff := (digitChar_facts f hf).1
  have fg := (digitChar_facts g hg).1
  have fh := (digitChar_facts h hh).1
  have fi := (digitChar_facts i hi).1
  have hsep : isSep3 '/' = true := by decide
  have htrip : tripletAt
      [digitChar a, digitChar b, '/', digitChar c, digitChar e, '/',
       digitChar f, digitChar g, digitChar h, digitChar i] =
      some ([digitChar a, digitChar b], [digitChar c, digitChar e],
        [digitChar f, digitChar g, digitChar h, digitChar i]) := by
    simp only [tripletAt, grab12, grab4, fa, fb, fc, fe, ff, fg, fh, fi,
      Bool.and_self, Bool.true_and, Bool.and_true, if_true,
      List.findSome?_cons, hsep, Option.map_some']
  rw [searchTriplet, htrip]
  rfl

theorem validate_date_shape (a b c e f g h i : Nat)
    (ha : a < 10) (hb : b < 10) (hc : c < 10) (he : e < 10)
    (hf : f < 10) (hg : g < 10) (hh : h < 10) (hi : i < 10) :
    validate_date (some
      [digitChar a, digitChar b, '/', digitChar c, digitChar e, '/',
       digitChar f, digitChar g, digitChar h, digitChar i]) =
    ⟨true, some
      [digitChar a, digitChar b, '/', digitChar c, digitChar e, '/',
       digitChar f, digitChar g, digitChar h, digitChar i], []⟩ := by
  set t : Str := [digitChar a, digitChar b, '/', digitChar c, digitChar e,
    '/', digitChar f, digitChar g, digitChar h, digitChar i] with ht
  have hnl : nullLike (some t) = false := by
    refine nullLike_of_length ?_ ?_ ?_ <;> rw [ht] <;> simp
  by_cases hok : (1 ≤ 10*a+b ∧ 10*a+b ≤ 31) ∧ (1 ≤ 10*c+e ∧ 10*c+e ≤ 12) ∧
      validYMD (1000*f+100*g+10*h+i) (10*c+e) (10*a+b) = true
  · obtain ⟨hdok, hmok, hvok⟩ := hok
    have hp := parse_fmt1_success a b c e f g h i ha hb hc he hf hg hh hi
      hdok.1 hdok.2 hmok.1 hmok.2
    have hs1 : strptime1 [.D, .lit '/', .M, .lit '/', .Y] t =
        some (1000*f+100*g+10*h+i, 10*c+e, 10*a+b) := by
      rw [ht]
      simp only [strptime1, hp, hvok, if_true]
    have hsf : strptimeFirst t =
        some (1000*f+100*g+10*h+i, 10*c+e, 10*a+b) := by
      simp only [strptimeFirst, DATE_FORMATS, List.foldr_cons,
        List.foldr_nil, hs1, opt_some_orElse]
    have hrd : renderDMY (1000*f+100*g+10*h+i) (10*c+e) (10*a+b) = t := by
      have r1 : (10*a+b)/10 = a := by omega
      have r2 : (10*a+b)%10 = b := by omega
      have r3 : (10*c+e)/10 = c := by omega
      have r4 : (10*c+e)%10 = e := by omega
      have r5 : (1000*f+100*g+10*h+i)/1000 % 10 = f := by omega
      have r6 : (1000*f+100*g+10*h+i)/100 % 10 = g := by omega
      have r7 : (1000*f+100*g+10*h+i)/10 % 10 = h := by omega
      have r8 : (1000*f+100*g+10*h+i) % 10 = i := by omega
      rw [ht]
      simp only [renderDMY, pad2, pad4, r1, r2, r3, r4, r5, r6, r7, r8]
      rfl
    simp only [validate_date, hnl, Bool.false_eq_true, if_false,
      Option.getD_some, hsf, hrd]
  · have hs1 : strptime1 [.D, .lit '/', .M, .lit '/', .Y] t = none := by
      by_cases hdok : 1 ≤ 10*a+b ∧ 10*a+b ≤ 31
      · by_cases hmok : 1 ≤ 10*c+e ∧ 10*c+e ≤ 12
        · have hv : ¬ validYMD (1000*f+100*g+10*h+i) (10*c+e) (10*a+b) =
              true := fun hv => hok ⟨hdok, hmok, hv⟩
          have hp := parse_fmt1_success a b c e f g h i ha hb hc he hf hg
            hh hi hdok.1 hdok.2 hmok.1 hmok.2
          rw [ht]
          simp only [strptime1, hp]
          rw [if_neg hv]
        · rw [ht]
          exact strptime1_none (parse_fmt1_fail_m ha hb hc he _ hdok hmok)
      · rw [ht]
        exact strptime1_none (parse_fmt1_fail_d ha hb _ hdok)
    have hs2 : strptime1 [.D, .lit '-', .M, .lit '-', .Y] t = none := by
      rw [ht]
      exact strptime1_none (parse_fmt2_none ha hb _)
    have hs3 : strptime1 [.Y, .lit '-', .M, .lit '-', .D] t = none := by
      rw [ht]
      exact strptime1_none (parse_fmt3_none ha hb hc _)
    have hs4 : strptime1 [.D, .lit '.', .M, .lit '.', .Y] t = none := by
      rw [ht]
      exact strptime1_none (parse_fmt4_none ha hb _)
    have hs5 : strptime1 [.D, .ws, .B, .ws, .Y] t = none := by
      rw [ht]
      exact strptime1_none (parse_fmt5_none ha hb _)
    have hs6 : strptime1 [.B, .ws, .D, .lit ',', .ws, .Y] t = none := by
      rw [ht]
      exact strptime1_none (parse_fmt6_none ha _)
    have hsf : strptimeFirst t = none := by
      simp only [strptimeFirst, DATE_FORMATS, List.foldr_cons,
        List.foldr_nil, hs1, hs2, hs3, hs4, hs5, hs6, opt_none_orElse]
    have hst := searchTriplet_shape_some a b c e f g h i ha hb hc he hf hg
      hh hi
    rw [← ht] at hst
    simp only [validate_date, hnl, Bool.false_eq_true, if_false,
      Option.getD_some, hsf, hst]
    rw [show zfill2 [digitChar a, digitChar b] = [digitChar a, digitChar b]
        by simp [zfill2],
      show zfill2 [digitChar c, digitChar e] = [digitChar c, digitChar e]
        by simp [zfill2]]
    rfl

theorem grab12_shape {s : Str} {p : Str × Str} (h : p ∈ grab12 s) :
    1 ≤ p.1.length ∧ p.1.length ≤ 2 ∧ p.1.all pyIsDigit = true := by
  rcases s with _ | ⟨x, _ | ⟨y, r⟩⟩
  · simp [grab12] at h
  · simp only [grab12] at h
    split_ifs at h with h1
    · simp only [List.mem_singleton] at h
      subst h
      simp [h1]
    · simp at h
  · simp only [grab12] at h
    split_ifs at h with h1 h2
    · rcases List.mem_cons.mp h with rfl | h'
      · rw [Bool.and_eq_true] at h1
        simp [h1.1, h1.2]
      · simp only [List.mem_singleton] at h'
        subst h'
        rw [Bool.and_eq_true] at h1
        simp [h1.1]
    · simp only [List.mem_singleton] at h
      subst h
      simp [h2]
    · simp at h

theorem grab4_shape {s : Str} {ys : Str} (h : grab4 s = some ys) :
    ys.length = 4 ∧ ys.all pyIsDigit = true := by
  rcases s with _ | ⟨x1, _ | ⟨x2, _ | ⟨x3, _ | ⟨x4, r⟩⟩⟩⟩
  · exact Option.noConfusion h
  · exact Option.noConfusion h
  · exact Option.noConfusion h
  · exact Option.noConfusion h
  · have h' : (if (pyIsDigit x1 && pyIsDigit x2 && pyIsDigit x3 &&
        pyIsDigit x4) = true then some [x1, x2, x3, x4] else none) =
        some ys := h
    split_ifs at h' with h1
    injection h' with h2
    subst h2
    obtain ⟨⟨⟨ha', hb'⟩, hc'⟩, he'⟩ : ((pyIsDigit x1 = true ∧
        pyIsDigit x2 = true) ∧ pyIsDigit x3 = true) ∧ pyIsDigit x4 =
        true := by simpa only [Bool.and_eq_true] using h1
    simp [ha', hb', hc', he']

theorem tripletAt_shape {s : Str} {ds ms ys : Str}
    (h : tripletAt s = some (ds, ms, ys)) :
    (1 ≤ ds.length ∧ ds.length ≤ 2 ∧ ds.all pyIsDigit = true) ∧
    (1 ≤ ms.length ∧ ms.length ≤ 2 ∧ ms.all pyIsDigit = true) ∧
    (ys.length = 4 ∧ ys.all pyIsDigit = true) := by
  rw [tripletAt] at h
  obtain ⟨p, hp, hp2⟩ := List.exists_of_findSome?_eq_some h
  split at hp2
  next c1 r2 =>
    split_ifs at hp2 with hsep
    obtain ⟨q, hq, hq2⟩ := List.exists_of_findSome?_eq_some hp2
    split at hq2
    next c2 r4 heq2 =>
      split_ifs at hq2 with hsep2
      cases hg4 : grab4 r4 with
      | none => rw [hg4] at hq2; exact Option.noConfusion hq2
      | some ys' =>
        rw [hg4, Option.map_some'] at hq2
        injection hq2 with h2
        injection h2 with e1 h3
        injection h3 with e2 e3
        subst e1
        subst e2
        subst e3
        exact ⟨grab12_shape hp, grab12_shape hq, grab4_shape hg4⟩
    next => exact Option.noConfusion hq2
  next => exact Option.noConfusion hp2

theorem searchTriplet_shape :
    ∀ {s ds ms ys : Str}, searchTriplet s = some (ds, ms, ys) →
      (1 ≤ ds.length ∧ ds.length ≤ 2 ∧ ds.all pyIsDigit = true) ∧
      (1 ≤ ms.length ∧ ms.length ≤ 2 ∧ ms.all pyIsDigit = true) ∧
      (ys.length = 4 ∧ ys.all pyIsDigit = true) := by
  intro s
  induction s with
  | nil => intro ds ms ys h; exact Option.noConfusion h
  | cons c r ih =>
    intro ds ms ys h
    rw [searchTriplet] at h
    cases htry : tripletAt (c :: r) with
    | some w =>
      rw [htry, opt_some_orElse] at h
      injection h with h2
      subst h2
      exact tripletAt_shape htry
    | none =>
      rw [htry, opt_none_orElse] at h
      exact ih h

theorem zfill2_digits {ds : Str} (h1 : 1 ≤ ds.length) (h2 : ds.length ≤ 2)
    (hall : ds.all pyIsDigit = true) :
    ∃ p q, p < 10 ∧ q < 10 ∧ zfill2 ds = [digitChar p, digitChar q] := by
  rcases ds with _ | ⟨x, _ | ⟨y, r⟩⟩
  · simp at h1
  · simp only [List.all_cons, List.all_nil, Bool.and_true] at hall
    refine ⟨0, digitVal x, by omega, digitVal_lt hall, ?_⟩
    rw [show zfill2 [x] = ['0', x] by simp [zfill2], digitChar_digitVal hall]
    rfl
  · have hr : r = [] := by
      simp only [List.length_cons] at h2
      cases r with
      | nil => rfl
      | cons z t => simp at h2
    subst hr
    simp only [List.all_cons, List.all_nil, Bool.and_true,
      Bool.and_eq_true] at hall
    refine ⟨digitVal x, digitVal y, digitVal_lt hall.1, digitVal_lt hall.2,
      ?_⟩
    rw [show zfill2 [x, y] = [x, y] by simp [zfill2],
      digitChar_digitVal hall.1, digitChar_digitVal hall.2]

theorem four_digits {ys : Str} (hl : ys.length = 4)
    (hall : ys.all pyIsDigit = true) :
    ∃ p q u w, p < 10 ∧ q < 10 ∧ u < 10 ∧ w < 10 ∧
      ys = [digitChar p, digitChar q, digitChar u, digitChar w] := by
  rcases ys with _ | ⟨x1, _ | ⟨x2, _ | ⟨x3, _ | ⟨x4, r⟩⟩⟩⟩ <;>
    simp only [List.length_cons, List.length_nil] at hl
  · omega
  · omega
  · omega
  · omega
  · have hr : r = [] := by
      cases r with
      | nil => rfl
      | cons z t => simp at hl
    subst hr
    simp only [List.all_cons, List.all_nil, Bool.and_true,
      Bool.and_eq_true] at hall
    refine ⟨digitVal x1, digitVal x2, digitVal x3, digitVal x4,
      digitVal_lt hall.1, digitVal_lt hall.2.1, digitVal_lt hall.2.2.1,
      digitVal_lt hall.2.2.2, ?_⟩
    rw [digitChar_digitVal hall.1, digitChar_digitVal hall.2.1,
      digitChar_digitVal hall.2.2.1, digitChar_digitVal hall.2.2.2]

theorem date_stable {v w : Option Str} {er : Str}
    (h : validate_date v = ⟨true, w, er⟩) :
    validate_date w = ⟨true, w, []⟩ := by
  simp only [validate_date] at h
  split_ifs at h with h0
  · injection h with _ hw _
    subst hw
    rfl
  · cases v with
    | none => exact absurd (by decide : nullLike none = true) h0
    | some s =>
      simp only [Option.getD_some] at h
      have hnl : nullLike (some s) = false := Bool.eq_false_iff.mpr h0
      cases hsp : strptimeFirst s with
      | some ymd =>
        obtain ⟨y, m, d⟩ := ymd
        rw [hsp] at h
        injection h with _ hw _
        subst hw
        have hv := strptimeFirst_valid hsp
        obtain ⟨hy1, hy2, hm1, hm2, hd1, hd2⟩ := validYMD_bounds hv
        have hr : renderDMY y m d = [digitChar (d/10), digitChar (d%10),
            '/', digitChar (m/10), digitChar (m%10), '/',
            digitChar (y/1000%10), digitChar (y/100%10),
            digitChar (y/10%10), digitChar (y%10)] := rfl
        rw [hr]
        exact validate_date_shape (d/10) (d%10) (m/10) (m%10) (y/1000%10)
          (y/100%10) (y/10%10) (y%10) (by omega) (by omega) (by omega)
          (by omega) (by omega) (by omega) (by omega) (by omega)
      | none =>
        rw [hsp] at h
        cases hst : searchTriplet s with
        | none =>
          rw [hst] at h
          injection h with _ hw _
          subst hw
          simp only [validate_date, hnl, Bool.false_eq_true, if_false,
            Option.getD_some, hsp, hst]
        | some tpl =>
          obtain ⟨ds, ms, ys⟩ := tpl
          rw [hst] at h
          injection h with _ hw _
          subst hw
          obtain ⟨⟨hda, hdb, hdall⟩, ⟨hma, hmb, hmall⟩, hy4, hyall⟩ :=
            searchTriplet_shape hst
          obtain ⟨p, q, hp, hq, hzd⟩ := zfill2_digits hda hdb hdall
          obtain ⟨p2, q2, hp2, hq2, hzm⟩ := zfill2_digits hma hmb hmall
          obtain ⟨df, dg, dh, di, hdf, hdg, hdh, hdi, hys⟩ :=
            four_digits hy4 hyall
          rw [hzd, hzm, hys]
          show validate_date (some [digitChar p, digitChar q, '/',
            digitChar p2, digitChar q2, '/', digitChar df, digitChar dg,
            digitChar dh, digitChar di]) = _
          exact validate_date_shape p q p2 q2 df dg dh di hp hq hp2 hq2
            hdf hdg hdh hdi

theorem ok_of_errEntry {r : ValRes} {f : Str}
    (h : (if r.ok = true then ([] : List Str) else [fmtErr f r.err]) = []) :
    r.ok = true := by
  by_cases hr : r.ok = true
  · exact hr
  · rw [if_neg hr] at h
    exact absurd h (by simp)

/-- C6 counterexample: `validate` is not idempotent.  The party-name validator
collapses `"NULL "` to `"NULL"`, which the second pass recognises as a
placeholder and nulls out, so the second triple differs from the first. -/
theorem validate_not_idempotent :
    validate ⟨some (strOf "NULL "), none, none, none, none, some (strOf "x"),
        none, none⟩ =
      (true, ⟨some (strOf "NULL"), none, none, none, none, some (strOf "x"),
        none, none⟩, []) ∧
    validate ⟨some (strOf "NULL"), none, none, none, none, some (strOf "x"),
        none, none⟩ =
      (true, ⟨none, none, none, none, none, some (strOf "x"),
        none, none⟩, []) ∧
    validate (validate ⟨some (strOf "NULL "), none, none, none, none,
        some (strOf "x"), none, none⟩).2.1 ≠
      validate ⟨some (strOf "NULL "), none, none, none, none, some (strOf "x"),
        none, none⟩ := by
  refine ⟨by decide, by decide, by decide⟩

/-- C6 (amended): `validate` is idempotent on fully valid output.  If a first
pass returns `(True, fields, [])` and no present normalized value is itself a
placeholder (empty, or lowercasing to null/none/n-a), then a second pass over
`fields` returns `(True, fields, [])` — the same triple, with no further
mutation of any field. -/
theorem validate_idempotent (e fs : Entities)
    (h : validate e = (true, fs, []))
    (hst : ∀ v ∈ fs.values, ∀ s, v = some s → nullLike (some s) = false) :
    validate fs = (true, fs, []) := by
  rw [validate] at h
  simp only [Prod.mk.injEq] at h
  obtain ⟨-, h2, h3⟩ := h
  subst h2
  simp only [List.append_eq_nil] at h3
  have e1 := h3.1.1.1.1.1.1.1
  have e2 := h3.1.1.1.1.1.1.2
  have e3 := h3.1.1.1.1.1.2
  have e4 := h3.1.1.1.1.2
  have e5 := h3.1.1.1.2
  have e6 := h3.1.1.2
  have e7 := h3.1.2
  have e8 := h3.2
  have o1 := ok_of_errEntry e1
  have o2 := ok_of_errEntry e2
  have o3 := ok_of_errEntry e3
  have o4 := ok_of_errEntry e4
  have o5 := ok_of_errEntry e5
  have o6 := ok_of_errEntry e6
  have o7 := ok_of_errEntry e7
  have o8 := ok_of_errEntry e8
  have hr1 : validate_party_name e.autor = ⟨true,
      (validate_party_name e.autor).val,
      (validate_party_name e.autor).err⟩ := by rw [← o1]
  have hr2 : validate_party_name e.reu = ⟨true,
      (validate_party_name e.reu).val,
      (validate_party_name e.reu).err⟩ := by rw [← o2]
  have hr3 : validate_subject e.assunto_principal = ⟨true,
      (validate_subject e.assunto_principal).val,
      (validate_subject e.assunto_principal).err⟩ := by rw [← o3]
  have hr4 : validate_decision_type e.tipo_decisao = ⟨true,
      (validate_decision_type e.tipo_decisao).val,
      (validate_decision_type e.tipo_decisao).err⟩ := by rw [← o4]
  have hr5 : validate_result e.resultado = ⟨true,
      (validate_result e.resultado).val,
      (validate_result e.resultado).err⟩ := by rw [← o5]
  have hr6 : validate_summary e.resumo_5_linhas = ⟨true,
      (validate_summary e.resumo_5_linhas).val,
      (validate_summary e.resumo_5_linhas).err⟩ := by rw [← o6]
  have hr7 : validate_date e.data_decisao = ⟨true,
      (validate_date e.data_decisao).val,
      (validate_date e.data_decisao).err⟩ := by rw [← o7]
  have hr8 : validate_court e.tribunal = ⟨true,
      (validate_court e.tribunal).val,
      (validate_court e.tribunal).err⟩ := by rw [← o8]
  have s1 := party_stable hr1
    (fun s hs => hst _ (by simp [Entities.values]) s hs)
  have s2 := party_stable hr2
    (fun s hs => hst _ (by simp [Entities.values]) s hs)
  have s3 := subject_stable hr3
    (fun s hs => hst _ (by simp [Entities.values]) s hs)
  have s4 := decision_stable hr4
  have s5 := result_stable hr5
  have s6 := summary_stable hr6
  have s7 := date_stable hr7
  have s8 := court_stable hr8
    (fun s hs => hst _ (by simp [Entities.values]) s hs)
  simp only [validate, s1, s2, s3, s4, s5, s6, s7, s8, if_true,
    List.append_nil, List.nil_append, List.isEmpty_nil]

/-- C6 witness: the amended idempotence theorem applied to an already
normalized mapping carrying a party name, a one-line summary and a date. -/
theorem validate_idempotent_witness :
    validate ⟨some (strOf "John Doe"), none, none, none, none,
      some (strOf "A short summary."), some (strOf "15/03/2021"), none⟩ =
      (true, ⟨some (strOf "John Doe"), none, none, none, none,
        some (strOf "A short summary."), some (strOf "15/03/2021"), none⟩,
       []) := by
  apply validate_idempotent ⟨some (strOf "John Doe"), none, none, none, none,
    some (strOf "A short summary."), some (strOf "15/03/2021"), none⟩
  · decide
  · intro v hv s hs
    simp only [Entities.values, List.mem_cons, List.not_mem_nil,
      or_false] at hv
    rcases hv with rfl | rfl | rfl | rfl | rfl | rfl | rfl | rfl <;>
      first
        | exact Option.noConfusion hs
        | (injection hs with h2; subst h2; decide)

end LegalExtraction
